import Mathlib

/-!
The YARA `json` module of node-yara-rs, `deps/json.c`

A shallow embedding of the eight rule functions of `src/deps/json.c`
(`key_exists`, the four `value_exists` overloads, the three `*_array_includes`)
and of `module_load`, followed by the properties proved about them.

Conventions of the embedding.

* A C string is a `List Char`.  Wherever the C code reads a `char *`
  (`strdup`, `strcmp`, `strtok`) only the characters before the first NUL are
  seen; `cstr` computes that view.
* A JSON number is a finite IEEE double (jansson rejects overflowing literals,
  and `JSON_DECODE_INT_AS_REAL` turns every number into a real).  Every finite
  double is a rational, and the only operations the module applies to it
  (`==` and the conversion `(int)`) are exact, so the payload is a `ℚ`.
* A call either executes `return_integer(v)` or reaches an operation whose
  behaviour the C standard leaves undefined; `Outcome` records which.
* The library routines the module calls (`strdup`, `strtok`, `strcmp`, `strcpy`
  and jansson's accessors) are embedded by their documented behaviour; jansson's
  parser, `yr_re_match` and the constant `ERROR_SUCCESS` are parameters.
* A memory block is the list of its bytes; it carries no terminator of its own.
-/

namespace YaraJson

/-! ## Data model -/

/-- A jansson value as `json_loads` builds it under
`JSON_DECODE_INT_AS_REAL | JSON_ALLOW_NUL`: numbers are reals, string values may
hold NUL characters, an object is a table from keys to values. -/
inductive json_t where
  | null
  | bool (b : Bool)
  | real (v : ℚ)
  | string (s : List Char)
  | array (elems : List json_t)
  | object (fields : List (List Char × json_t))

/-- The module object of the scan; `data` is `module_object->data`, `none` being
the C `NULL`. -/
structure YR_OBJECT where
  data : Option json_t

/-- The operations of `json.c` whose behaviour is undefined in C. -/
inductive Fault where
  /-- `strdup(token)` while `token == NULL` (the key has no token). -/
  | nullToken
  /-- `strcpy(prevToken, token)` with a token longer than the buffer that
  `strdup` allocated for the first token. -/
  | tokenOverflow
  /-- `strcmp(found, value)` while `found == NULL`. -/
  | nullString
  /-- The conversion `(int)foundNumber` of a value outside the range of `int`. -/
  | intRange
  /-- The sequence `free(array); free(key); free(key);` after the array loop: it
  releases a node the document still owns and frees `key` twice. -/
  | doubleFree
  deriving DecidableEq

/-- What a call of a rule function does: `return_integer(v)`, or undefined
behaviour. -/
inductive Outcome where
  | ret (v : Int)
  | fault (f : Fault)
  deriving DecidableEq

/-- The value `float_argument(2)` hands over: a finite double, or an infinity or
NaN (which no finite double equals). -/
inductive c_double where
  | finite (q : ℚ)
  | nonfinite

/-- The result of the token loop that carries `prevToken`. -/
inductive Walk where
  | notFound
  | overflow
  | found (node : json_t)

/-! ## C library routines -/

/-- The NUL character that ends a C string. -/
def NUL : Char := Char.ofNat 0

/-- The delimiter given to `strtok`. -/
def DOT : Char := '.'

/-- The string a `char *` denotes: the characters before the first NUL. -/
def cstr : List Char → List Char
  | [] => []
  | c :: cs => if c = NUL then [] else c :: cstr cs

/-- The copy `strdup` makes of the string behind a `char *`. -/
def strdup (s : List Char) : List Char := cstr s

/-- The test `strcmp(a, b) == 0`. -/
def strcmp_eq (a b : List Char) : Bool := cstr a == cstr b

/-- One call of `strtok(_, ".")` on the remaining buffer: skip the leading
delimiters; `none` when nothing is left, else the token up to the next delimiter
and the buffer after that delimiter. -/
def strtok (buf : List Char) : Option (List Char × List Char) :=
  match buf.dropWhile (fun c => c == DOT) with
  | [] => none
  | c :: cs =>
    some ((c :: cs).takeWhile (fun c => c != DOT),
          ((c :: cs).dropWhile (fun c => c != DOT)).drop 1)

/-- The tokens successive `strtok` calls return, at most `fuel` of them. -/
def tokensFuel : Nat → List Char → List (List Char)
  | 0, _ => []
  | fuel + 1, buf =>
    match strtok buf with
    | none => []
    | some (tok, rest) => tok :: tokensFuel fuel rest

/-- All tokens of a key: every token holds a character, so `buf.length` calls
exhaust the buffer. -/
def tokens (buf : List Char) : List (List Char) := tokensFuel buf.length buf

/-! ## jansson -/

/-- The lookup `json_object_get(iter, token)`: `none` (C `NULL`) when `iter` is
not an object or has no such key. -/
def json_object_get : json_t → List Char → Option json_t
  | .object fields, key => fields.lookup key
  | _, _ => none

/-- The call `json_string_value(node)`: the string of a string node, else
`NULL`. -/
def json_string_value : json_t → Option (List Char)
  | .string s => some s
  | _ => none

/-- The call `json_number_value(node)`: the value of a number, else `0.0`. -/
def json_number_value : json_t → ℚ
  | .real v => v
  | _ => 0

/-- The elements `json_array_foreach` visits: those of an array, none for any
other node (`json_array_size` is 0 there). -/
def json_array_elems : json_t → List json_t
  | .array elems => elems
  | _ => []

/-! ## Machine integers -/

/-- The least `int`. -/
def INT_MIN : Int := -2147483648

/-- The greatest `int`. -/
def INT_MAX : Int := 2147483647

/-- A double with its fraction discarded (rounding toward zero). -/
def truncate (v : ℚ) : Int := Int.tdiv v.num v.den

/-- The conversion `(int)foundNumber`: defined only when the truncated value is
an `int`. -/
def double_to_int (v : ℚ) : Option Int :=
  if INT_MIN ≤ truncate v ∧ truncate v ≤ INT_MAX then some (truncate v) else none

/-- The initialisation `int value = integer_argument(2)`: the 64-bit argument
reduced to 32-bit two's complement. -/
def int_of_argument (i : Int) : Int := (i + 2147483648) % 4294967296 - 2147483648

/-- The comparison `found == value` of a document number with the float
argument. -/
def double_eq (found : ℚ) : c_double → Bool
  | .finite q => found == q
  | .nonfinite => false

/-! ## The token loops -/

/-- The `while (token != NULL)` loop of `key_exists`: follow the tokens by
`json_object_get`, leaving at the first `NULL`. -/
def lookupLoop : json_t → List (List Char) → Option json_t
  | iter, [] => some iter
  | iter, tok :: rest =>
    match json_object_get iter tok with
    | none => none
    | some next => lookupLoop next rest

/-- The `while (token != NULL)` loop of the other seven functions: after each
successful lookup `strcpy(prevToken, token)` writes `token` and its terminator
into a buffer of `cap` bytes. -/
def copyLoop (cap : Nat) : json_t → List (List Char) → Walk
  | iter, [] => .found iter
  | iter, tok :: rest =>
    match json_object_get iter tok with
    | none => .notFound
    | some next => if tok.length + 1 ≤ cap then copyLoop cap next rest else .overflow

/-- The lines from `strtok(key, ".")` to the end of the loop in the seven
functions that keep `prevToken = strdup(token)`. -/
def resolve (json : json_t) (key : List Char) : Except Outcome json_t :=
  match tokens (strdup key) with
  | [] => .error (.fault .nullToken)
  | tok :: rest =>
    match copyLoop (tok.length + 1) json (tok :: rest) with
    | .notFound => .error (.ret 0)
    | .overflow => .error (.fault .tokenOverflow)
    | .found iter => .ok iter

/-! ## The array loops -/

/-- The `json_array_foreach` loop of `string_array_includes` and the code after
it. -/
def string_scan (value : List Char) : List json_t → Outcome
  | [] => .fault .doubleFree
  | element :: rest =>
    match json_string_value element with
    | none => .fault .nullString
    | some found => if strcmp_eq found value then .ret 1 else string_scan value rest

/-- The `json_array_foreach` loop of `integer_array_includes` and the code after
it. -/
def integer_scan (value : Int) : List json_t → Outcome
  | [] => .fault .doubleFree
  | element :: rest =>
    if json_number_value element = 0 then .ret 0
    else
      match double_to_int (json_number_value element) with
      | none => .fault .intRange
      | some found => if found = value then .ret 1 else integer_scan value rest

/-- The `json_array_foreach` loop of `float_array_includes` and the code after
it. -/
def float_scan (value : c_double) : List json_t → Outcome
  | [] => .fault .doubleFree
  | element :: rest =>
    if json_number_value element = 0 then .ret 0
    else if double_eq (json_number_value element) value then .ret 1
    else float_scan value rest

/-! ## The rule functions -/

/-- The function `key_exists` of `json.c`. -/
def key_exists (m : YR_OBJECT) (key : List Char) : Outcome :=
  match m.data with
  | none => .ret 0
  | some json =>
    match lookupLoop json (tokens (strdup key)) with
    | none => .ret 0
    | some _ => .ret 1

/-- The function `value_exists_string` of `json.c`. -/
def value_exists_string (m : YR_OBJECT) (key value : List Char) : Outcome :=
  match m.data with
  | none => .ret 0
  | some json =>
    match resolve json key with
    | .error out => out
    | .ok iter =>
      match json_string_value iter with
      | none => .ret 0
      | some found => if strcmp_eq found (strdup value) then .ret 1 else .ret 0

/-- The function `value_exists_integer` of `json.c`. -/
def value_exists_integer (m : YR_OBJECT) (key : List Char) (value : Int) : Outcome :=
  match m.data with
  | none => .ret 0
  | some json =>
    match resolve json key with
    | .error out => out
    | .ok iter =>
      if json_number_value iter = 0 then .ret 0
      else
        match double_to_int (json_number_value iter) with
        | none => .fault .intRange
        | some found => if found = int_of_argument value then .ret 1 else .ret 0

/-- The function `value_exists_regex` of `json.c`; `re` is `yr_re_match` applied
to the compiled expression: the length of the match, or a negative number. -/
def value_exists_regex (m : YR_OBJECT) (key : List Char) (re : List Char → Int) : Outcome :=
  match m.data with
  | none => .ret 0
  | some json =>
    match resolve json key with
    | .error out => out
    | .ok iter =>
      match json_string_value iter with
      | none => .ret 0
      | some found => if re (cstr found) ≤ 0 then .ret 0 else .ret 1

/-- The function `value_exists_float` of `json.c`. -/
def value_exists_float (m : YR_OBJECT) (key : List Char) (value : c_double) : Outcome :=
  match m.data with
  | none => .ret 0
  | some json =>
    match resolve json key with
    | .error out => out
    | .ok iter =>
      if json_number_value iter = 0 then .ret 0
      else if double_eq (json_number_value iter) value then .ret 1 else .ret 0

/-- The function `string_array_includes` of `json.c`. -/
def string_array_includes (m : YR_OBJECT) (key value : List Char) : Outcome :=
  match m.data with
  | none => .ret 0
  | some json =>
    match resolve json key with
    | .error out => out
    | .ok array => string_scan (strdup value) (json_array_elems array)

/-- The function `integer_array_includes` of `json.c`. -/
def integer_array_includes (m : YR_OBJECT) (key : List Char) (value : Int) : Outcome :=
  match m.data with
  | none => .ret 0
  | some json =>
    match resolve json key with
    | .error out => out
    | .ok array => integer_scan (int_of_argument value) (json_array_elems array)

/-- The function `float_array_includes` of `json.c`. -/
def float_array_includes (m : YR_OBJECT) (key : List Char) (value : c_double) : Outcome :=
  match m.data with
  | none => .ret 0
  | some json =>
    match resolve json key with
    | .error out => out
    | .ok array => float_scan value (json_array_elems array)

/-! ## Loading -/

/-- What a call of `module_load` does: it returns a status and leaves the module
object, or `json_loads` reads `block_data` beyond the end of the memory block. -/
inductive LoadOutcome where
  | done (status : Int) (module_object : YR_OBJECT)
  | overread

/-- The function `module_load` of `json.c`.  `block_data` holds the bytes of the
first memory block; its size is never consulted.  `json_loads` takes a bare
`char *`: it is given the bytes before the first NUL of the block, and when the
block holds no NUL its reads are not confined to the block.  `ERROR_SUCCESS` is
the status constant of YARA's headers, and `json_loads` is jansson's parser
(with the flags fixed in the source) on a C string. -/
def module_load (ERROR_SUCCESS : Int) (json_loads : List Char → Option json_t)
    (block_data : List Char) : LoadOutcome :=
  if NUL ∈ block_data then
    match json_loads (cstr block_data) with
    | none => .done ERROR_SUCCESS { data := none }
    | some json => .done ERROR_SUCCESS { data := some json }
  else .overread

/-- A stand-in for jansson's parser, used where a theorem about `module_load` is
instantiated: it accepts the text of the empty object and nothing else. -/
def json_loads_stub (text : List Char) : Option json_t :=
  if text = [Char.ofNat 123, Char.ofNat 125] then some (.object []) else none

/-- The memory block of the two bytes of the text of the empty object, with no
NUL behind them. -/
def block_braces : List Char := [Char.ofNat 123, Char.ofNat 125]

/-- The memory block of the text `not json` closed by a NUL. -/
def block_not_json : List Char := "not json".toList ++ [NUL]

/-- The memory block of the text of the empty object closed by a NUL. -/
def block_braces_nul : List Char := [Char.ofNat 123, Char.ofNat 125, NUL]

/-! ## Documents of the scenarios -/

/-- The document with `a.b` the string `x` and `n` null. -/
def doc_nested : json_t :=
  .object [("a".toList, .object [("b".toList, .string "x".toList)]), ("n".toList, .null)]

/-- The document with `n` the number 42. -/
def doc_n42 : json_t := .object [("n".toList, .real 42)]

/-- The document with `k` the string of the three characters `a`, NUL, `b`, as
the text with the escape for NUL loads under `JSON_ALLOW_NUL`. -/
def doc_nul : json_t := .object [("k".toList, .string ['a', NUL, 'b'])]

/-- A token of 40 characters, longer than any one-character first token. -/
def long_token : List Char := List.replicate 40 'b'

/-- The document in which the field `a` is an object whose only field, named
`long_token`, is the number 0. -/
def doc_long : json_t := .object [("a".toList, .object [(long_token, .real 0)])]

/-- The document with `n` the number 0. -/
def doc_n0 : json_t := .object [("n".toList, .real 0)]

/-- The document with `arr` the array of the strings `x`, `y`, `z`. -/
def doc_arr : json_t :=
  .object [("arr".toList, .array [.string "x".toList, .string "y".toList, .string "z".toList])]

/-- The document with `arr` the array of the number 1 and the string `y`. -/
def doc_mixed : json_t := .object [("arr".toList, .array [.real 1, .string "y".toList])]

/-- The document with `arr` the array holding the one string `a`, NUL, `b`. -/
def doc_arr_nul : json_t := .object [("arr".toList, .array [.string ['a', NUL, 'b']])]

/-- The document with `arr` the array of the string `x` and the number 5. -/
def doc_x5 : json_t := .object [("arr".toList, .array [.string "x".toList, .real 5])]

/-- The document with `arr` the array of the numbers 0 and 5. -/
def doc_05 : json_t := .object [("arr".toList, .array [.real 0, .real 5])]

/-- The document with `arr` the array of the numbers 5 and 0. -/
def doc_50 : json_t := .object [("arr".toList, .array [.real 5, .real 0])]

/-- The document with `arr` the array of the numbers 5 and 7. -/
def doc_57 : json_t := .object [("arr".toList, .array [.real 5, .real 7])]

/-- The document with `arr` the array of the numbers 7 and 5. -/
def doc_75 : json_t := .object [("arr".toList, .array [.real 7, .real 5])]

/-- The document with `arr` the array of the strings `x` and `y`. -/
def doc_xy : json_t := .object [("arr".toList, .array [.string "x".toList, .string "y".toList])]

/-- The document with `arr` the array of the strings `y` and `x`. -/
def doc_yx : json_t := .object [("arr".toList, .array [.string "y".toList, .string "x".toList])]

/-! ## Paths as the specification describes them -/

/-- The dotted key of a sequence of segments. -/
def dotted (segs : List (List Char)) : List Char := [DOT].intercalate segs

/-- A segment a path may hold: it has a character, and neither the delimiter nor
the terminator of a C string occurs in it. -/
def Segment (s : List Char) : Prop := s ≠ [] ∧ DOT ∉ s ∧ NUL ∉ s

instance : DecidablePred Segment := fun s => by
  unfold Segment
  exact inferInstance

/-- The tree walker of the specification: every segment is an object-field
lookup from the node reached so far. -/
def follow : json_t → List (List Char) → Option json_t
  | node, [] => some node
  | node, seg :: rest =>
    match node with
    | .object fields =>
      match fields.lookup seg with
      | some child => follow child rest
      | none => none
    | _ => none


/-! ## What the array functions release -/

/-- The node of the document that the statement `free(array)` behind the loop of
an array function releases: the resolved node, when the loop (given as `scan`)
ends without a `return_integer`; `none` when the call does not get there.  The
other five functions release only their own copies of the arguments. -/
def freed_node (m : YR_OBJECT) (key : List Char) (scan : List json_t → Outcome) :
    Option json_t :=
  match m.data with
  | none => none
  | some json =>
    match resolve json key with
    | .error _ => none
    | .ok array =>
      match scan (json_array_elems array) with
      | .fault .doubleFree => some array
      | _ => none

/-- The document node `string_array_includes` passes to `free`. -/
def string_array_includes_freed (m : YR_OBJECT) (key value : List Char) : Option json_t :=
  freed_node m key (string_scan (strdup value))

/-- The document node `integer_array_includes` passes to `free`. -/
def integer_array_includes_freed (m : YR_OBJECT) (key : List Char) (value : Int) :
    Option json_t :=
  freed_node m key (integer_scan (int_of_argument value))

/-- The document node `float_array_includes` passes to `free`. -/
def float_array_includes_freed (m : YR_OBJECT) (key : List Char) (value : c_double) :
    Option json_t :=
  freed_node m key (float_scan value)

/-! ## Matchers of the scenarios -/

/-- The matcher of an expression for the three characters `a`, NUL, `b`: a match
of length 3 on that string, no match (-1) on any other. -/
def re_a_nul_b (target : List Char) : Int := if target = ['a', NUL, 'b'] then 3 else -1

/-- A matcher that matches every string in full. -/
def re_any (target : List Char) : Int := target.length

/-! ## More documents -/

/-- The document with `arr` the array of the one number 5. -/
def doc_5 : json_t := .object [("arr".toList, .array [.real 5])]

/-! ## The key with its superfluous dots removed -/

/-- Collapse every run of adjacent dots into one dot. -/
def collapse_dots : List Char → List Char
  | [] => []
  | c :: rest =>
    if c = DOT ∧ rest.head? = some DOT then collapse_dots rest else c :: collapse_dots rest

/-- Remove the leading dots. -/
def trim_leading (key : List Char) : List Char := key.dropWhile (fun c => c == DOT)

/-- Remove the trailing dots. -/
def trim_trailing (key : List Char) : List Char :=
  (key.reverse.dropWhile (fun c => c == DOT)).reverse

/-- The key obtained, in the words of the claim, by removing leading dots,
trailing dots and collapsing runs of adjacent dots into one. -/
def normal_key (key : List Char) : List Char :=
  trim_trailing (trim_leading (collapse_dots key))

/-! ## Strings and tokens -/

theorem cstr_eq_self (s : List Char) (h : NUL ∉ s) : cstr s = s := by
  induction s with
  | nil => rfl
  | cons c cs ih =>
    simp only [List.mem_cons, not_or] at h
    have hc : c ≠ NUL := fun e => h.1 e.symm
    simp [cstr, hc, ih h.2]

theorem cstr_idem (s : List Char) : cstr (cstr s) = cstr s := by
  induction s with
  | nil => rfl
  | cons c cs ih =>
    by_cases hc : c = NUL
    · simp [cstr, hc]
    · simp [cstr, hc, ih]

theorem strtok_nil : strtok [] = none := rfl

theorem strtok_dot (buf : List Char) : strtok (DOT :: buf) = strtok buf := by
  simp [strtok, List.dropWhile]

theorem takeWhile_seg (s rest : List Char) (h : DOT ∉ s) :
    (s ++ DOT :: rest).takeWhile (fun c => c != DOT) = s := by
  induction s with
  | nil => simp [List.takeWhile]
  | cons c cs ih =>
    simp only [List.mem_cons, not_or] at h
    have hc : (c != DOT) = true := by simpa using fun e => h.1 e.symm
    simp [List.takeWhile, hc, ih h.2]

theorem dropWhile_seg (s rest : List Char) (h : DOT ∉ s) :
    (s ++ DOT :: rest).dropWhile (fun c => c != DOT) = DOT :: rest := by
  induction s with
  | nil => simp [List.dropWhile]
  | cons c cs ih =>
    simp only [List.mem_cons, not_or] at h
    have hc : (c != DOT) = true := by simpa using fun e => h.1 e.symm
    simp [List.dropWhile, hc, ih h.2]

theorem takeWhile_last (s : List Char) (h : DOT ∉ s) :
    s.takeWhile (fun c => c != DOT) = s := by
  induction s with
  | nil => rfl
  | cons c cs ih =>
    simp only [List.mem_cons, not_or] at h
    have hc : (c != DOT) = true := by simpa using fun e => h.1 e.symm
    simp [List.takeWhile, hc, ih h.2]

theorem dropWhile_last (s : List Char) (h : DOT ∉ s) :
    s.dropWhile (fun c => c != DOT) = [] := by
  induction s with
  | nil => rfl
  | cons c cs ih =>
    simp only [List.mem_cons, not_or] at h
    have hc : (c != DOT) = true := by simpa using fun e => h.1 e.symm
    simp [List.dropWhile, hc, ih h.2]

theorem strtok_head (c : Char) (cs : List Char) (hc : (c == DOT) = false) :
    strtok (c :: cs) = some ((c :: cs).takeWhile (fun c => c != DOT),
      ((c :: cs).dropWhile (fun c => c != DOT)).drop 1) := by
  have hd : (c :: cs).dropWhile (fun c => c == DOT) = c :: cs := by
    simp [List.dropWhile, hc]
  unfold strtok
  rw [hd]

theorem strtok_seg (s rest : List Char) (hne : s ≠ []) (h : DOT ∉ s) :
    strtok (s ++ DOT :: rest) = some (s, rest) := by
  cases s with
  | nil => exact absurd rfl hne
  | cons c cs =>
    have hc : (c == DOT) = false := by simpa using fun e => h (by simp [e])
    have h1 := takeWhile_seg (c :: cs) rest h
    have h2 := dropWhile_seg (c :: cs) rest h
    simp only [List.cons_append] at h1 h2
    rw [List.cons_append, strtok_head c _ hc, h1, h2]
    rfl

theorem strtok_last (s : List Char) (hne : s ≠ []) (h : DOT ∉ s) :
    strtok s = some (s, []) := by
  cases s with
  | nil => exact absurd rfl hne
  | cons c cs =>
    have hc : (c == DOT) = false := by simpa using fun e => h (by simp [e])
    have h1 := takeWhile_last (c :: cs) h
    have h2 := dropWhile_last (c :: cs) h
    rw [strtok_head c _ hc, h1, h2]
    rfl

theorem length_dropWhile_le (p : Char → Bool) (l : List Char) :
    (l.dropWhile p).length ≤ l.length := by
  induction l with
  | nil => simp
  | cons c cs ih =>
    simp only [List.dropWhile]
    split
    · simp only [List.length_cons]; omega
    · simp

theorem strtok_length (buf tok rest : List Char) (h : strtok buf = some (tok, rest)) :
    rest.length < buf.length := by
  unfold strtok at h
  have h0 := length_dropWhile_le (fun c => c == DOT) buf
  split at h
  · cases h
  · rename_i c cs heq
    simp only [Option.some.injEq, Prod.mk.injEq] at h
    have h1 := length_dropWhile_le (fun c => c != DOT) (c :: cs)
    rw [heq] at h0
    rw [← h.2]
    simp only [List.length_drop, List.length_cons] at *
    omega

theorem tokensFuel_enough : ∀ (n m : Nat) (buf : List Char),
    buf.length ≤ n → buf.length ≤ m → tokensFuel n buf = tokensFuel m buf := by
  intro n
  induction n with
  | zero =>
    intro m buf hn _
    have : buf = [] := List.eq_nil_of_length_eq_zero (by omega)
    subst this
    cases m <;> simp [tokensFuel, strtok_nil]
  | succ n ih =>
    intro m buf hn hm
    cases m with
    | zero =>
      have : buf = [] := List.eq_nil_of_length_eq_zero (by omega)
      subst this
      simp [tokensFuel, strtok_nil]
    | succ m =>
      simp only [tokensFuel]
      cases h : strtok buf with
      | none => rfl
      | some p =>
        obtain ⟨tok, rest⟩ := p
        have hl := strtok_length buf tok rest h
        simp only
        rw [ih m rest (by omega) (by omega)]

theorem tokens_step (buf : List Char) :
    tokens buf = match strtok buf with
      | none => []
      | some (tok, rest) => tok :: tokens rest := by
  unfold tokens
  cases hb : buf with
  | nil => simp [tokensFuel, strtok_nil]
  | cons c cs =>
    simp only [List.length_cons, tokensFuel]
    cases h : strtok (c :: cs) with
    | none => rfl
    | some p =>
      obtain ⟨tok, rest⟩ := p
      have hl := strtok_length (c :: cs) tok rest h
      simp only [List.length_cons] at hl
      simp only
      rw [tokensFuel_enough cs.length rest.length rest (by omega) (le_refl _)]

theorem tokens_nil : tokens [] = [] := rfl

theorem tokens_dot (buf : List Char) : tokens (DOT :: buf) = tokens buf := by
  rw [tokens_step (DOT :: buf), strtok_dot, ← tokens_step]

theorem tokens_seg (s rest : List Char) (hne : s ≠ []) (h : DOT ∉ s) :
    tokens (s ++ DOT :: rest) = s :: tokens rest := by
  rw [tokens_step, strtok_seg s rest hne h]

theorem tokens_last (s : List Char) (hne : s ≠ []) (h : DOT ∉ s) :
    tokens s = [s] := by
  rw [tokens_step, strtok_last s hne h]
  rfl

theorem dotted_cons_cons (s t : List Char) (r : List (List Char)) :
    dotted (s :: t :: r) = s ++ DOT :: dotted (t :: r) := by
  simp [dotted, List.intercalate, List.intersperse]

theorem tokens_dotted (segs : List (List Char)) (h : ∀ s ∈ segs, DOT ∉ s) :
    tokens (dotted segs) = segs.filter (fun s => s != []) := by
  induction segs with
  | nil => rfl
  | cons s r ih =>
    cases r with
    | nil =>
      have hs : dotted [s] = s := by simp [dotted, List.intercalate, List.intersperse]
      rw [hs]
      by_cases hne : s = []
      · subst hne; rfl
      · rw [tokens_last s hne (h s (by simp))]; simp [hne]
    | cons t r =>
      have ih1 := ih (fun x hx => h x (List.mem_cons_of_mem _ hx))
      rw [dotted_cons_cons]
      by_cases hne : s = []
      · subst hne
        rw [List.nil_append, tokens_dot, ih1]; rfl
      · rw [tokens_seg s _ hne (h s (by simp)), ih1]
        simp [hne]

/-! ## Keys built from segments -/

theorem mem_dotted (c : Char) (segs : List (List Char)) (h : c ∈ dotted segs) :
    c = DOT ∨ ∃ s ∈ segs, c ∈ s := by
  induction segs with
  | nil => simp [dotted, List.intercalate, List.intersperse] at h
  | cons s r ih =>
    cases r with
    | nil =>
      have hs : dotted [s] = s := by simp [dotted, List.intercalate, List.intersperse]
      rw [hs] at h
      exact Or.inr ⟨s, by simp, h⟩
    | cons t r =>
      rw [dotted_cons_cons] at h
      rcases List.mem_append.mp h with h1 | h1
      · exact Or.inr ⟨s, by simp, h1⟩
      · rcases List.mem_cons.mp h1 with h2 | h2
        · exact Or.inl h2
        · rcases ih h2 with h3 | ⟨x, hx, hc⟩
          · exact Or.inl h3
          · exact Or.inr ⟨x, List.mem_cons_of_mem _ hx, hc⟩

theorem strdup_dotted (segs : List (List Char)) (h : ∀ s ∈ segs, NUL ∉ s) :
    strdup (dotted segs) = dotted segs := by
  apply cstr_eq_self
  intro hmem
  rcases mem_dotted NUL segs hmem with h1 | ⟨s, hs, hc⟩
  · exact absurd h1 (by decide)
  · exact h s hs hc

theorem filter_segments (segs : List (List Char)) (h : ∀ s ∈ segs, s ≠ []) :
    segs.filter (fun s => s != []) = segs := by
  apply List.filter_eq_self.mpr
  intro s hs
  simpa using h s hs

theorem tokens_of_segments (segs : List (List Char)) (h : ∀ s ∈ segs, Segment s) :
    tokens (strdup (dotted segs)) = segs := by
  rw [strdup_dotted segs (fun s hs => (h s hs).2.2),
    tokens_dotted segs (fun s hs => (h s hs).2.1),
    filter_segments segs (fun s hs => (h s hs).1)]

theorem lookupLoop_eq_follow (json : json_t) (toks : List (List Char)) :
    lookupLoop json toks = follow json toks := by
  induction toks generalizing json with
  | nil => rfl
  | cons t r ih =>
    cases json <;> simp only [lookupLoop, follow, json_object_get]
    rename_i fields
    cases fields.lookup t with
    | none => rfl
    | some child => exact ih child

theorem key_exists_tokens (json : json_t) (key : List Char) :
    key_exists { data := some json } key =
      match follow json (tokens (strdup key)) with
      | none => .ret 0
      | some _ => .ret 1 := by
  simp only [key_exists, lookupLoop_eq_follow]

/-! ## Existence -/

/-- Claim C1.  On a loaded document, for a key made of non-empty dot-separated
segments, `key_exists` returns 1 exactly when following the segments as
object-field lookups from the root reaches a node (of any type), and returns 0
exactly when it does not. -/
theorem key_exists_iff_follow (json : json_t) (segs : List (List Char))
    (hseg : ∀ s ∈ segs, Segment s) :
    (key_exists { data := some json } (dotted segs) = .ret 1 ↔
        ∃ node, follow json segs = some node) ∧
    (key_exists { data := some json } (dotted segs) = .ret 0 ↔
        follow json segs = none) := by
  rw [key_exists_tokens, tokens_of_segments segs hseg]
  cases follow json segs with
  | none => simp
  | some node => simp

/-- Witness of C1 on `doc_nested`: `a.b` (a string) and `n` (a null) exist, `a.c`
does not. -/
theorem key_exists_iff_follow_witness :
    key_exists { data := some doc_nested } "a.b".toList = .ret 1 ∧
    key_exists { data := some doc_nested } "n".toList = .ret 1 ∧
    key_exists { data := some doc_nested } "a.c".toList = .ret 0 :=
  ⟨(key_exists_iff_follow doc_nested ["a".toList, "b".toList] (by decide)).1.mpr ⟨_, rfl⟩,
   (key_exists_iff_follow doc_nested ["n".toList] (by decide)).1.mpr ⟨_, rfl⟩,
   (key_exists_iff_follow doc_nested ["a".toList, "c".toList] (by decide)).2.mpr rfl⟩

/-! ## Loading -/

/-- Support for C4: on a memory block that holds a NUL, `module_load` reports
`ERROR_SUCCESS`; when the parser rejects the bytes before that NUL the module
holds no document, and every rule function then returns 0 for every key and
comparison value. -/
theorem load_failure_isolation (ERROR_SUCCESS : Int)
    (json_loads : List Char → Option json_t) (block_data : List Char)
    (hnul : NUL ∈ block_data) :
    (∃ m, module_load ERROR_SUCCESS json_loads block_data = .done ERROR_SUCCESS m) ∧
    (json_loads (cstr block_data) = none →
      module_load ERROR_SUCCESS json_loads block_data =
        .done ERROR_SUCCESS { data := none } ∧
      ∀ (key s : List Char) (i : Int) (d : c_double) (re : List Char → Int),
        key_exists { data := none } key = .ret 0 ∧
        value_exists_string { data := none } key s = .ret 0 ∧
        value_exists_integer { data := none } key i = .ret 0 ∧
        value_exists_regex { data := none } key re = .ret 0 ∧
        value_exists_float { data := none } key d = .ret 0 ∧
        string_array_includes { data := none } key s = .ret 0 ∧
        integer_array_includes { data := none } key i = .ret 0 ∧
        float_array_includes { data := none } key d = .ret 0) := by
  constructor
  · unfold module_load
    rw [if_pos hnul]
    cases json_loads (cstr block_data) with
    | none => exact ⟨_, rfl⟩
    | some json => exact ⟨_, rfl⟩
  · intro h
    refine ⟨?_, fun _ _ _ _ _ => ⟨rfl, rfl, rfl, rfl, rfl, rfl, rfl, rfl⟩⟩
    unfold module_load
    rw [if_pos hnul, h]

/-- Instance of the support for C4, with 0 for `ERROR_SUCCESS`: the text
`not json` closed by a NUL is rejected, the load still succeeds and holds no
document, and `key_exists("anything")` is 0 afterwards; the text of the empty
object closed by a NUL is loaded. -/
theorem load_failure_isolation_witness :
    json_loads_stub (cstr block_not_json) = none ∧
    module_load 0 json_loads_stub block_not_json = .done 0 { data := none } ∧
    key_exists { data := none } "anything".toList = .ret 0 ∧
    module_load 0 json_loads_stub block_braces_nul = .done 0 { data := some (.object []) } :=
  ⟨rfl,
   ((load_failure_isolation 0 json_loads_stub block_not_json (by decide)).2 rfl).1,
   (((load_failure_isolation 0 json_loads_stub block_not_json (by decide)).2 rfl).2
      "anything".toList [] 0 .nonfinite (fun _ => 0)).1,
   rfl⟩

/-- Claim C4 at its failing input.  The memory block `block_braces` holds the two
bytes of the text of the empty object and no NUL.  Whatever the parser and the
status constant, `module_load` does not report success on it: `json_loads` is
handed the block as a C string, the size of the block is never used, and the
parser reads beyond the end of the block. -/
theorem load_reads_beyond_block (ERROR_SUCCESS : Int)
    (json_loads : List Char → Option json_t) :
    NUL ∉ block_braces ∧
    module_load ERROR_SUCCESS json_loads block_braces = .overread ∧
    ∀ m, module_load ERROR_SUCCESS json_loads block_braces ≠ .done ERROR_SUCCESS m := by
  have hn : NUL ∉ block_braces := by decide
  have hm : module_load ERROR_SUCCESS json_loads block_braces = .overread := by
    unfold module_load
    rw [if_neg hn]
  refine ⟨hn, hm, ?_⟩
  intro m h
  rw [hm] at h
  cases h

/-! ## The loop that carries `prevToken` -/

theorem copyLoop_fits (cap : Nat) (json : json_t) (toks : List (List Char))
    (hfit : ∀ t ∈ toks, t.length + 1 ≤ cap) :
    copyLoop cap json toks =
      match follow json toks with
      | none => .notFound
      | some node => .found node := by
  induction toks generalizing json with
  | nil => rfl
  | cons t r ih =>
    have ht : t.length + 1 ≤ cap := hfit t (by simp)
    have hr : ∀ x ∈ r, x.length + 1 ≤ cap := fun x hx => hfit x (List.mem_cons_of_mem _ hx)
    cases json <;> simp only [copyLoop, follow, json_object_get]
    rename_i fields
    cases fields.lookup t with
    | none => rfl
    | some child =>
      simp only [ht, if_true]
      exact ih child hr

theorem copyLoop_unresolved (cap : Nat) (json : json_t) (toks : List (List Char))
    (h : copyLoop cap json toks = .notFound) : follow json toks = none := by
  induction toks generalizing json with
  | nil => simp [copyLoop] at h
  | cons t r ih =>
    cases json <;> simp only [copyLoop, follow, json_object_get] at h ⊢
    rename_i fields
    cases hl : fields.lookup t with
    | none => rfl
    | some child =>
      rw [hl] at h
      simp only at h ⊢
      by_cases ht : t.length + 1 ≤ cap
      · rw [if_pos ht] at h
        exact ih child h
      · rw [if_neg ht] at h
        cases h

theorem copyLoop_found (cap : Nat) (json node : json_t) (toks : List (List Char))
    (h : copyLoop cap json toks = .found node) : follow json toks = some node := by
  induction toks generalizing json with
  | nil =>
    simp only [copyLoop, Walk.found.injEq] at h
    simp [follow, h]
  | cons t r ih =>
    cases json with
    | object fields =>
      simp only [copyLoop, follow, json_object_get] at h ⊢
      cases hl : fields.lookup t with
      | none => rw [hl] at h; cases h
      | some child =>
        rw [hl] at h
        simp only at h ⊢
        by_cases ht : t.length + 1 ≤ cap
        · rw [if_pos ht] at h
          exact ih child h
        · rw [if_neg ht] at h
          cases h
    | _ => simp [copyLoop, json_object_get] at h

/-- The segments of a path fit the `prevToken` buffer when none is longer than
the first. -/
theorem resolve_segments (json : json_t) (s : List Char) (r : List (List Char))
    (hseg : ∀ x ∈ s :: r, Segment x) (hfit : ∀ x ∈ r, x.length ≤ s.length) :
    resolve json (dotted (s :: r)) =
      match follow json (s :: r) with
      | none => .error (.ret 0)
      | some node => .ok node := by
  unfold resolve
  rw [tokens_of_segments (s :: r) hseg]
  have hall : ∀ t ∈ s :: r, t.length + 1 ≤ s.length + 1 := by
    intro t ht
    rcases List.mem_cons.mp ht with h1 | h1
    · rw [h1]
    · have := hfit t h1
      omega
  simp only
  rw [copyLoop_fits (s.length + 1) json (s :: r) hall]
  cases follow json (s :: r) <;> rfl

theorem resolve_congr (json : json_t) (k1 k2 : List Char)
    (h : tokens (strdup k1) = tokens (strdup k2)) : resolve json k1 = resolve json k2 := by
  unfold resolve
  rw [h]

theorem resolve_ok_follow (json node : json_t) (key : List Char)
    (h : resolve json key = .ok node) :
    follow json (tokens (strdup key)) = some node := by
  unfold resolve at h
  cases ht : tokens (strdup key) with
  | nil => rw [ht] at h; cases h
  | cons t r =>
    rw [ht] at h
    simp only at h
    cases hc : copyLoop (t.length + 1) json (t :: r) with
    | notFound => rw [hc] at h; cases h
    | overflow => rw [hc] at h; cases h
    | found n =>
      rw [hc] at h
      simp only [Except.ok.injEq] at h
      subst h
      exact copyLoop_found _ _ _ _ hc

/-! ## String comparison -/

theorem strcmp_eq_strdup (found value : List Char) :
    strcmp_eq found (strdup value) = true ↔ cstr value = cstr found := by
  unfold strcmp_eq strdup
  rw [cstr_idem]
  constructor
  · intro h
    exact (eq_of_beq h).symm
  · intro h
    rw [h]
    exact beq_self_eq_true _

theorem value_exists_string_resolved (json : json_t) (key V value : List Char)
    (h : resolve json key = .ok (.string V)) :
    value_exists_string { data := some json } key value =
      if cstr value = cstr V then .ret 1 else .ret 0 := by
  simp only [value_exists_string, h, json_string_value]
  by_cases hc : cstr value = cstr V
  · rw [if_pos hc, if_pos ((strcmp_eq_strdup V value).mpr hc)]
  · rw [if_neg hc, if_neg (fun hs => hc ((strcmp_eq_strdup V value).mp hs))]

/-- Claim C2, amended.  On a path none of whose segments is longer than the
first and which names a string field with value `V`: `value_exists` (string)
returns 1 for `V`; for any supplied `W` it returns 1 when `W` and `V` agree up to
their first NUL and 0 otherwise; so between NUL-free strings it returns 0 for
every `W` different from `V`. -/
theorem value_exists_string_cstr (json : json_t) (s : List Char) (r : List (List Char))
    (V : List Char) (hseg : ∀ x ∈ s :: r, Segment x) (hfit : ∀ x ∈ r, x.length ≤ s.length)
    (hres : follow json (s :: r) = some (.string V)) :
    value_exists_string { data := some json } (dotted (s :: r)) V = .ret 1 ∧
    (∀ W : List Char, value_exists_string { data := some json } (dotted (s :: r)) W =
        if cstr W = cstr V then .ret 1 else .ret 0) ∧
    (∀ W : List Char, NUL ∉ V → NUL ∉ W → W ≠ V →
        value_exists_string { data := some json } (dotted (s :: r)) W = .ret 0) := by
  have hr : resolve json (dotted (s :: r)) = .ok (.string V) := by
    rw [resolve_segments json s r hseg hfit, hres]
  refine ⟨?_, ?_, ?_⟩
  · rw [value_exists_string_resolved json _ V V hr, if_pos rfl]
  · intro W
    exact value_exists_string_resolved json _ V W hr
  · intro W hV hW hne
    rw [value_exists_string_resolved json _ V W hr, cstr_eq_self W hW, cstr_eq_self V hV,
      if_neg hne]

/-- Witness of the amended C2 on `doc_nested`, where `a.b` is the string `x`. -/
theorem value_exists_string_cstr_witness :
    value_exists_string { data := some doc_nested } "a.b".toList "x".toList = .ret 1 ∧
    value_exists_string { data := some doc_nested } "a.b".toList "y".toList = .ret 0 :=
  ⟨(value_exists_string_cstr doc_nested "a".toList ["b".toList] "x".toList (by decide)
      (by decide) rfl).1,
   (value_exists_string_cstr doc_nested "a".toList ["b".toList] "x".toList (by decide)
      (by decide) rfl).2.2 "y".toList (by decide) (by decide) (by decide)⟩

/-- Counterexample to C2 as stated: the field `k` holds the three characters
`a`, NUL, `b` (which `JSON_ALLOW_NUL` admits); the supplied string `a` differs
from that value, yet `value_exists` returns 1. -/
theorem value_exists_string_nul_counterexample :
    follow doc_nul ["k".toList] = some (.string ['a', NUL, 'b']) ∧
    "a".toList ≠ ['a', NUL, 'b'] ∧
    value_exists_string { data := some doc_nul } "k".toList "a".toList = .ret 1 :=
  ⟨rfl, by decide, by decide⟩

/-! ## Integer comparison -/

theorem int_of_argument_id (i : Int) (h1 : INT_MIN ≤ i) (h2 : i ≤ INT_MAX) :
    int_of_argument i = i := by
  unfold INT_MIN at h1
  unfold INT_MAX at h2
  unfold int_of_argument
  omega

theorem value_exists_integer_resolved (json : json_t) (key : List Char) (v : ℚ) (i : Int)
    (h : resolve json key = .ok (.real v)) (hv : v ≠ 0)
    (hrange : INT_MIN ≤ truncate v ∧ truncate v ≤ INT_MAX) :
    value_exists_integer { data := some json } key i =
      if truncate v = int_of_argument i then .ret 1 else .ret 0 := by
  simp only [value_exists_integer, h, json_number_value, double_to_int, if_neg hv, if_pos hrange]

/-- Claim C5, amended.  On a path none of whose segments is longer than the
first and which resolves to a non-zero number `v` whose truncation is an `int`:
`value_exists` (integer) returns 1 exactly when `v` truncated equals the supplied
integer reduced to 32-bit two's complement, else 0; so for a supplied integer
within the range of `int`, exactly when `v` truncated equals it. -/
theorem value_exists_integer_truncated (json : json_t) (s : List Char)
    (r : List (List Char)) (v : ℚ) (i : Int)
    (hseg : ∀ x ∈ s :: r, Segment x) (hfit : ∀ x ∈ r, x.length ≤ s.length)
    (hres : follow json (s :: r) = some (.real v)) (hv : v ≠ 0)
    (hrange : INT_MIN ≤ truncate v ∧ truncate v ≤ INT_MAX) :
    value_exists_integer { data := some json } (dotted (s :: r)) i =
        (if truncate v = int_of_argument i then .ret 1 else .ret 0) ∧
    (INT_MIN ≤ i → i ≤ INT_MAX →
      value_exists_integer { data := some json } (dotted (s :: r)) i =
        (if truncate v = i then .ret 1 else .ret 0)) := by
  have hr : resolve json (dotted (s :: r)) = .ok (.real v) := by
    rw [resolve_segments json s r hseg hfit, hres]
  refine ⟨value_exists_integer_resolved json _ v i hr hv hrange, ?_⟩
  intro h1 h2
  rw [value_exists_integer_resolved json _ v i hr hv hrange, int_of_argument_id i h1 h2]

/-- Witness of the amended C5 on `doc_n42`. -/
theorem value_exists_integer_truncated_witness :
    value_exists_integer { data := some doc_n42 } "n".toList 42 = .ret 1 ∧
    value_exists_integer { data := some doc_n42 } "n".toList 43 = .ret 0 :=
  ⟨(value_exists_integer_truncated doc_n42 "n".toList [] 42 42 (by decide) (by decide) rfl
      (by decide) (by decide)).2 (by decide) (by decide),
   (value_exists_integer_truncated doc_n42 "n".toList [] 42 43 (by decide) (by decide) rfl
      (by decide) (by decide)).2 (by decide) (by decide)⟩

/-- Counterexample to C5 as stated: `n` is 42 and the supplied integer is
`42 + 2^32`; the number truncated is not the supplied integer, yet `value_exists`
returns 1, because the argument is stored in an `int`. -/
theorem value_exists_integer_narrowing_counterexample :
    follow doc_n42 ["n".toList] = some (.real 42) ∧
    truncate 42 ≠ 4294967338 ∧
    value_exists_integer { data := some doc_n42 } "n".toList 4294967338 = .ret 1 :=
  ⟨rfl, by decide, by decide⟩

/-! ## Paths that do not resolve -/

/-- Support for C3: when following the segments fails and no segment is longer
than the first, all eight rule functions return 0, whatever the comparison
value; `key_exists` does so for every length of segment. -/
theorem unresolved_returns_zero (json : json_t) (s : List Char) (r : List (List Char))
    (hseg : ∀ x ∈ s :: r, Segment x) (hres : follow json (s :: r) = none) :
    key_exists { data := some json } (dotted (s :: r)) = .ret 0 ∧
    ((∀ x ∈ r, x.length ≤ s.length) →
      ∀ (v : List Char) (i : Int) (d : c_double) (re : List Char → Int),
        value_exists_string { data := some json } (dotted (s :: r)) v = .ret 0 ∧
        value_exists_integer { data := some json } (dotted (s :: r)) i = .ret 0 ∧
        value_exists_regex { data := some json } (dotted (s :: r)) re = .ret 0 ∧
        value_exists_float { data := some json } (dotted (s :: r)) d = .ret 0 ∧
        string_array_includes { data := some json } (dotted (s :: r)) v = .ret 0 ∧
        integer_array_includes { data := some json } (dotted (s :: r)) i = .ret 0 ∧
        float_array_includes { data := some json } (dotted (s :: r)) d = .ret 0) := by
  refine ⟨?_, ?_⟩
  · rw [key_exists_tokens, tokens_of_segments (s :: r) hseg, hres]
  intro hfit v i d re
  have hr : resolve json (dotted (s :: r)) = .error (.ret 0) := by
    rw [resolve_segments json s r hseg hfit, hres]
  simp only [value_exists_string, value_exists_integer, value_exists_regex, value_exists_float,
    string_array_includes, integer_array_includes, float_array_includes, hr, and_self]

/-- Claim C3 at its failing input.  In `doc_long` the path `a.<long_token>.c`
does not resolve (its last segment is absent), yet `value_exists` (string) does
not return 0: the second token does not fit the buffer `prevToken`, and the
copy into it is undefined before the missing segment is reached.  So do the
other six functions that keep `prevToken`; `key_exists` returns 0. -/
theorem unresolved_token_overflow :
    follow doc_long ["a".toList, long_token, "c".toList] = none ∧
    key_exists { data := some doc_long } (dotted ["a".toList, long_token, "c".toList]) =
      .ret 0 ∧
    value_exists_string { data := some doc_long }
      (dotted ["a".toList, long_token, "c".toList]) "x".toList = .fault .tokenOverflow ∧
    integer_array_includes { data := some doc_long }
      (dotted ["a".toList, long_token, "c".toList]) 1 = .fault .tokenOverflow :=
  ⟨rfl, by decide, by decide, by decide⟩

/-! ## The zero quirk -/

/-- Support for C6: on a path none of whose segments is longer than the first and
which resolves to the number 0, the integer and the float variant of
`value_exists` return 0 for every comparison value. -/
theorem zero_quirk (json : json_t) (s : List Char) (r : List (List Char))
    (hseg : ∀ x ∈ s :: r, Segment x) (hfit : ∀ x ∈ r, x.length ≤ s.length)
    (hres : follow json (s :: r) = some (.real 0)) (i : Int) (d : c_double) :
    value_exists_integer { data := some json } (dotted (s :: r)) i = .ret 0 ∧
    value_exists_float { data := some json } (dotted (s :: r)) d = .ret 0 := by
  have hr : resolve json (dotted (s :: r)) = .ok (.real 0) := by
    rw [resolve_segments json s r hseg hfit, hres]
  simp [value_exists_integer, value_exists_float, hr, json_number_value]

/-- Claim C6 at its failing input.  On `doc_n0` the call `value_exists("n", 0)`
returns 0, as the scenario says; but in `doc_long` the path `a.<long_token>`
resolves to the number 0 and neither variant returns 0: copying the second token
into `prevToken` overflows the buffer. -/
theorem zero_quirk_token_overflow :
    value_exists_integer { data := some doc_n0 } "n".toList 0 = .ret 0 ∧
    follow doc_long ["a".toList, long_token] = some (.real 0) ∧
    value_exists_integer { data := some doc_long } (dotted ["a".toList, long_token]) 0 =
      .fault .tokenOverflow ∧
    value_exists_float { data := some doc_long } (dotted ["a".toList, long_token])
      (.finite 0) = .fault .tokenOverflow :=
  ⟨by decide, rfl, by decide, by decide⟩

/-! ## The array loops -/

theorem string_scan_strings (v : List Char) (xs : List json_t)
    (hstr : ∀ e ∈ xs, ∃ t, e = .string t) :
    (string_scan (strdup v) xs = .ret 1 ∨ string_scan (strdup v) xs = .fault .doubleFree) ∧
    (string_scan (strdup v) xs = .ret 1 ↔ ∃ t, json_t.string t ∈ xs ∧ cstr t = cstr v) := by
  induction xs with
  | nil => simp [string_scan]
  | cons e rest ih =>
    obtain ⟨t, rfl⟩ := hstr e (by simp)
    have ih1 := ih (fun x hx => hstr x (List.mem_cons_of_mem _ hx))
    simp only [string_scan, json_string_value]
    by_cases hc : cstr v = cstr t
    · rw [if_pos ((strcmp_eq_strdup t v).mpr hc)]
      exact ⟨Or.inl rfl, fun _ => ⟨t, by simp, hc.symm⟩, fun _ => rfl⟩
    · rw [if_neg (fun hs => hc ((strcmp_eq_strdup t v).mp hs))]
      refine ⟨ih1.1, ?_⟩
      rw [ih1.2]
      constructor
      · rintro ⟨u, hu, hcu⟩
        exact ⟨u, List.mem_cons_of_mem _ hu, hcu⟩
      · rintro ⟨u, hu, hcu⟩
        rcases List.mem_cons.mp hu with h1 | h1
        · simp only [json_t.string.injEq] at h1
          subst h1
          exact absurd hcu.symm hc
        · exact ⟨u, h1, hcu⟩

theorem integer_scan_one (v : Int) (xs : List json_t)
    (hrange : ∀ e ∈ xs, INT_MIN ≤ truncate (json_number_value e) ∧
      truncate (json_number_value e) ≤ INT_MAX) :
    integer_scan v xs = .ret 1 ↔
      ∃ pre e post, xs = pre ++ e :: post ∧ (∀ x ∈ pre, json_number_value x ≠ 0) ∧
        json_number_value e ≠ 0 ∧ truncate (json_number_value e) = v := by
  induction xs with
  | nil => simp [integer_scan]
  | cons a rest ih =>
    have ih1 := ih (fun x hx => hrange x (List.mem_cons_of_mem _ hx))
    have ha := hrange a (by simp)
    simp only [integer_scan, double_to_int, if_pos ha]
    by_cases h0 : json_number_value a = 0
    · rw [if_pos h0]
      constructor
      · intro h; cases h
      · rintro ⟨pre, e, post, hx, hpre, he, _⟩
        cases pre with
        | nil =>
          simp only [List.nil_append, List.cons.injEq] at hx
          rw [hx.1] at h0
          exact absurd h0 he
        | cons p pre =>
          simp only [List.cons_append, List.cons.injEq] at hx
          exact absurd h0 (hx.1 ▸ hpre p (by simp))
    · rw [if_neg h0]
      by_cases hm : truncate (json_number_value a) = v
      · rw [if_pos hm]
        exact ⟨fun _ => ⟨[], a, rest, rfl, by simp, h0, hm⟩, fun _ => rfl⟩
      · rw [if_neg hm, ih1]
        constructor
        · rintro ⟨pre, e, post, hx, hpre, he, hv⟩
          refine ⟨a :: pre, e, post, by rw [hx]; rfl, ?_, he, hv⟩
          intro x hxm
          rcases List.mem_cons.mp hxm with h1 | h1
          · rw [h1]; exact h0
          · exact hpre x h1
        · rintro ⟨pre, e, post, hx, hpre, he, hv⟩
          cases pre with
          | nil =>
            simp only [List.nil_append, List.cons.injEq] at hx
            rw [← hx.1] at hv
            exact absurd hv hm
          | cons p pre =>
            simp only [List.cons_append, List.cons.injEq] at hx
            exact ⟨pre, e, post, hx.2, fun x hxm => hpre x (List.mem_cons_of_mem _ hxm), he, hv⟩

theorem integer_scan_zero (v : Int) (xs : List json_t)
    (hrange : ∀ e ∈ xs, INT_MIN ≤ truncate (json_number_value e) ∧
      truncate (json_number_value e) ≤ INT_MAX) :
    integer_scan v xs = .ret 0 ↔
      ∃ pre e post, xs = pre ++ e :: post ∧
        (∀ x ∈ pre, json_number_value x ≠ 0 ∧ truncate (json_number_value x) ≠ v) ∧
        json_number_value e = 0 := by
  induction xs with
  | nil => simp [integer_scan]
  | cons a rest ih =>
    have ih1 := ih (fun x hx => hrange x (List.mem_cons_of_mem _ hx))
    have ha := hrange a (by simp)
    simp only [integer_scan, double_to_int, if_pos ha]
    by_cases h0 : json_number_value a = 0
    · rw [if_pos h0]
      exact ⟨fun _ => ⟨[], a, rest, rfl, by simp, h0⟩, fun _ => rfl⟩
    · rw [if_neg h0]
      by_cases hm : truncate (json_number_value a) = v
      · rw [if_pos hm]
        constructor
        · intro h
          simp only [Outcome.ret.injEq] at h
          exact absurd h (by decide)
        · rintro ⟨pre, e, post, hx, hpre, he⟩
          cases pre with
          | nil =>
            simp only [List.nil_append, List.cons.injEq] at hx
            rw [← hx.1] at he
            exact absurd he h0
          | cons p pre =>
            simp only [List.cons_append, List.cons.injEq] at hx
            exact absurd hm (hx.1 ▸ (hpre p (by simp)).2)
      · rw [if_neg hm, ih1]
        constructor
        · rintro ⟨pre, e, post, hx, hpre, he⟩
          refine ⟨a :: pre, e, post, by rw [hx]; rfl, ?_, he⟩
          intro x hxm
          rcases List.mem_cons.mp hxm with h1 | h1
          · rw [h1]; exact ⟨h0, hm⟩
          · exact hpre x h1
        · rintro ⟨pre, e, post, hx, hpre, he⟩
          cases pre with
          | nil =>
            simp only [List.nil_append, List.cons.injEq] at hx
            rw [← hx.1] at he
            exact absurd he h0
          | cons p pre =>
            simp only [List.cons_append, List.cons.injEq] at hx
            exact ⟨pre, e, post, hx.2, fun x hxm => hpre x (List.mem_cons_of_mem _ hxm), he⟩

theorem integer_scan_nonzero (v : Int) (xs : List json_t)
    (hgood : ∀ e ∈ xs, json_number_value e ≠ 0 ∧
      INT_MIN ≤ truncate (json_number_value e) ∧ truncate (json_number_value e) ≤ INT_MAX) :
    (integer_scan v xs = .ret 1 ∨ integer_scan v xs = .fault .doubleFree) ∧
    (integer_scan v xs = .ret 1 ↔ ∃ e ∈ xs, truncate (json_number_value e) = v) := by
  induction xs with
  | nil => simp [integer_scan]
  | cons a rest ih =>
    have ih1 := ih (fun x hx => hgood x (List.mem_cons_of_mem _ hx))
    have ha := hgood a (by simp)
    simp only [integer_scan, double_to_int, if_pos ha.2, if_neg ha.1]
    by_cases hm : truncate (json_number_value a) = v
    · rw [if_pos hm]
      exact ⟨Or.inl rfl, fun _ => ⟨a, by simp, hm⟩, fun _ => rfl⟩
    · rw [if_neg hm]
      refine ⟨ih1.1, ?_⟩
      rw [ih1.2]
      constructor
      · rintro ⟨e, he, hv⟩
        exact ⟨e, List.mem_cons_of_mem _ he, hv⟩
      · rintro ⟨e, he, hv⟩
        rcases List.mem_cons.mp he with h1 | h1
        · rw [h1] at hv; exact absurd hv hm
        · exact ⟨e, h1, hv⟩

theorem float_scan_nonzero (d : c_double) (xs : List json_t)
    (hgood : ∀ e ∈ xs, json_number_value e ≠ 0) :
    (float_scan d xs = .ret 1 ∨ float_scan d xs = .fault .doubleFree) ∧
    (float_scan d xs = .ret 1 ↔ ∃ e ∈ xs, double_eq (json_number_value e) d = true) := by
  induction xs with
  | nil => simp [float_scan]
  | cons a rest ih =>
    have ih1 := ih (fun x hx => hgood x (List.mem_cons_of_mem _ hx))
    have ha := hgood a (by simp)
    simp only [float_scan, if_neg ha]
    by_cases hm : double_eq (json_number_value a) d = true
    · rw [if_pos hm]
      exact ⟨Or.inl rfl, fun _ => ⟨a, by simp, hm⟩, fun _ => rfl⟩
    · rw [if_neg hm]
      refine ⟨ih1.1, ?_⟩
      rw [ih1.2]
      constructor
      · rintro ⟨e, he, hv⟩
        exact ⟨e, List.mem_cons_of_mem _ he, hv⟩
      · rintro ⟨e, he, hv⟩
        rcases List.mem_cons.mp he with h1 | h1
        · rw [h1] at hv; exact absurd hv hm
        · exact ⟨e, h1, hv⟩

/-- Two outcomes that are each 1 or the fault after the loop, and are 1 under
equivalent conditions, are the same outcome. -/
theorem outcome_eq_of_iff (a b : Outcome) (f : Fault)
    (ha : a = .ret 1 ∨ a = .fault f) (hb : b = .ret 1 ∨ b = .fault f)
    (h : a = .ret 1 ↔ b = .ret 1) : a = b := by
  rcases ha with ha | ha
  · rw [ha, h.mp ha]
  · rcases hb with hb | hb
    · have := h.mpr hb
      rw [ha] at this
      cases this
    · rw [ha, hb]

/-! ## Array membership -/

/-- Claim C7, amended.  On a path none of whose segments is longer than the
first and which resolves to an array all of whose elements are strings,
`string_array_includes` returns 1 exactly when some element agrees with the
supplied string up to the first NUL of each; so, between NUL-free strings,
exactly when the supplied string is an element. -/
theorem string_array_includes_strings (json : json_t) (s : List Char)
    (r : List (List Char)) (xs : List json_t) (v : List Char)
    (hseg : ∀ x ∈ s :: r, Segment x) (hfit : ∀ x ∈ r, x.length ≤ s.length)
    (hres : follow json (s :: r) = some (.array xs))
    (hstr : ∀ e ∈ xs, ∃ t, e = .string t) :
    (string_array_includes { data := some json } (dotted (s :: r)) v = .ret 1 ↔
        ∃ t, json_t.string t ∈ xs ∧ cstr t = cstr v) ∧
    ((∀ t, json_t.string t ∈ xs → NUL ∉ t) → NUL ∉ v →
      (string_array_includes { data := some json } (dotted (s :: r)) v = .ret 1 ↔
        json_t.string v ∈ xs)) := by
  have hr : resolve json (dotted (s :: r)) = .ok (.array xs) := by
    rw [resolve_segments json s r hseg hfit, hres]
  have hmain : string_array_includes { data := some json } (dotted (s :: r)) v = .ret 1 ↔
      ∃ t, json_t.string t ∈ xs ∧ cstr t = cstr v := by
    simp only [string_array_includes, hr, json_array_elems]
    exact (string_scan_strings v xs hstr).2
  refine ⟨hmain, ?_⟩
  intro hnul hv
  rw [hmain]
  constructor
  · rintro ⟨t, ht, hc⟩
    rw [cstr_eq_self t (hnul t ht), cstr_eq_self v hv] at hc
    rw [← hc]
    exact ht
  · intro hmem
    exact ⟨v, hmem, rfl⟩

/-- Witness of the amended C7 on `doc_arr`: the string `y` is included. -/
theorem string_array_includes_strings_witness :
    string_array_includes { data := some doc_arr } "arr".toList "y".toList = .ret 1 :=
  ((string_array_includes_strings doc_arr "arr".toList []
      [.string "x".toList, .string "y".toList, .string "z".toList] "y".toList
      (by decide) (by decide) rfl
      (by simp)).1).mpr ⟨"y".toList, by simp, rfl⟩

/-- Counterexample to C7 as stated.  In `doc_arr_nul` no element of the array is
the string `a`, yet the call with `a` returns 1.  Besides, in `doc_mixed` the
string `y` is an element and the call does not return 1 (the number before it is
given to `strcmp` as `NULL`), and in `doc_arr` the call with `q` does not return
0 (after the loop `key` is freed twice). -/
theorem string_array_includes_counterexample :
    (∀ e ∈ [json_t.string ['a', NUL, 'b']], json_string_value e ≠ some "a".toList) ∧
    string_array_includes { data := some doc_arr_nul } "arr".toList "a".toList = .ret 1 ∧
    string_array_includes { data := some doc_mixed } "arr".toList "y".toList =
      .fault .nullString ∧
    string_array_includes { data := some doc_arr } "arr".toList "q".toList =
      .fault .doubleFree :=
  ⟨by decide, by decide, by decide, by decide⟩

/-- Claim C8, amended.  On a path none of whose segments is longer than the
first and which resolves to an array whose elements, truncated, are within the
range of `int`: `integer_array_includes` returns 1 exactly when some element
equals, truncated, the supplied integer (as an `int`) and it and every element
before it is a non-zero number; it returns 0 exactly when some element is zero or
not a number and no element before it is such or matches. -/
theorem integer_array_includes_scan (json : json_t) (s : List Char)
    (r : List (List Char)) (xs : List json_t) (i : Int)
    (hseg : ∀ x ∈ s :: r, Segment x) (hfit : ∀ x ∈ r, x.length ≤ s.length)
    (hres : follow json (s :: r) = some (.array xs))
    (hrange : ∀ e ∈ xs, INT_MIN ≤ truncate (json_number_value e) ∧
      truncate (json_number_value e) ≤ INT_MAX) :
    (integer_array_includes { data := some json } (dotted (s :: r)) i = .ret 1 ↔
      ∃ pre e post, xs = pre ++ e :: post ∧ (∀ x ∈ pre, json_number_value x ≠ 0) ∧
        json_number_value e ≠ 0 ∧ truncate (json_number_value e) = int_of_argument i) ∧
    (integer_array_includes { data := some json } (dotted (s :: r)) i = .ret 0 ↔
      ∃ pre e post, xs = pre ++ e :: post ∧
        (∀ x ∈ pre, json_number_value x ≠ 0 ∧
          truncate (json_number_value x) ≠ int_of_argument i) ∧
        json_number_value e = 0) := by
  have hr : resolve json (dotted (s :: r)) = .ok (.array xs) := by
    rw [resolve_segments json s r hseg hfit, hres]
  simp only [integer_array_includes, hr, json_array_elems]
  exact ⟨integer_scan_one _ xs hrange, integer_scan_zero _ xs hrange⟩

/-- Witness of the amended C8: in `doc_57` the integer 7 is found behind the
non-zero 5; in `doc_x5` the string `x` ends the scan with 0. -/
theorem integer_array_includes_scan_witness :
    integer_array_includes { data := some doc_57 } "arr".toList 7 = .ret 1 ∧
    integer_array_includes { data := some doc_x5 } "arr".toList 5 = .ret 0 :=
  ⟨((integer_array_includes_scan doc_57 "arr".toList [] [.real 5, .real 7] 7
      (by decide) (by decide) rfl (by decide)).1).mpr
      ⟨[.real 5], .real 7, [], rfl, by decide, by decide, by decide⟩,
   ((integer_array_includes_scan doc_x5 "arr".toList [] [.string "x".toList, .real 5] 5
      (by decide) (by decide) rfl (by decide)).2).mpr
      ⟨[], .string "x".toList, [.real 5], rfl, by decide, by decide⟩⟩

/-- Counterexample to C8 as stated: in `doc_x5` the element 5 equals the supplied
integer, yet `integer_array_includes` returns 0, because the string before it
ends the scan. -/
theorem integer_array_includes_counterexample :
    (∃ e ∈ [json_t.string "x".toList, json_t.real 5], truncate (json_number_value e) = 5) ∧
    integer_array_includes { data := some doc_x5 } "arr".toList 5 = .ret 0 :=
  ⟨by decide, by decide⟩

/-! ## Order of the elements -/

/-- Claim C9, amended.  Let a path none of whose segments is longer than the
first resolve to an array in one document and to a permutation of it in
another.  Then `string_array_includes` has the same outcome on both when every
element is a string, `integer_array_includes` when every element is a non-zero
number whose truncation is an `int`, and `float_array_includes` when every
element is a non-zero number. -/
theorem array_includes_perm (json1 json2 : json_t) (s : List Char) (r : List (List Char))
    (xs ys : List json_t)
    (hseg : ∀ x ∈ s :: r, Segment x) (hfit : ∀ x ∈ r, x.length ≤ s.length)
    (h1 : follow json1 (s :: r) = some (.array xs))
    (h2 : follow json2 (s :: r) = some (.array ys))
    (hp : xs.Perm ys) :
    ((∀ e ∈ xs, ∃ t, e = .string t) → ∀ v : List Char,
      string_array_includes { data := some json1 } (dotted (s :: r)) v =
        string_array_includes { data := some json2 } (dotted (s :: r)) v) ∧
    ((∀ e ∈ xs, json_number_value e ≠ 0 ∧ INT_MIN ≤ truncate (json_number_value e) ∧
        truncate (json_number_value e) ≤ INT_MAX) → ∀ i : Int,
      integer_array_includes { data := some json1 } (dotted (s :: r)) i =
        integer_array_includes { data := some json2 } (dotted (s :: r)) i) ∧
    ((∀ e ∈ xs, json_number_value e ≠ 0) → ∀ d : c_double,
      float_array_includes { data := some json1 } (dotted (s :: r)) d =
        float_array_includes { data := some json2 } (dotted (s :: r)) d) := by
  have hr1 : resolve json1 (dotted (s :: r)) = .ok (.array xs) := by
    rw [resolve_segments json1 s r hseg hfit, h1]
  have hr2 : resolve json2 (dotted (s :: r)) = .ok (.array ys) := by
    rw [resolve_segments json2 s r hseg hfit, h2]
  refine ⟨?_, ?_, ?_⟩
  · intro hx v
    have hy : ∀ e ∈ ys, ∃ t, e = .string t := fun e he => hx e (hp.mem_iff.mpr he)
    simp only [string_array_includes, hr1, hr2, json_array_elems]
    have a := string_scan_strings v xs hx
    have b := string_scan_strings v ys hy
    apply outcome_eq_of_iff _ _ _ a.1 b.1
    rw [a.2, b.2]
    constructor
    · rintro ⟨t, ht, hc⟩
      exact ⟨t, hp.mem_iff.mp ht, hc⟩
    · rintro ⟨t, ht, hc⟩
      exact ⟨t, hp.mem_iff.mpr ht, hc⟩
  · intro hx i
    have hy : ∀ e ∈ ys, json_number_value e ≠ 0 ∧ INT_MIN ≤ truncate (json_number_value e) ∧
        truncate (json_number_value e) ≤ INT_MAX := fun e he => hx e (hp.mem_iff.mpr he)
    simp only [integer_array_includes, hr1, hr2, json_array_elems]
    have a := integer_scan_nonzero (int_of_argument i) xs hx
    have b := integer_scan_nonzero (int_of_argument i) ys hy
    apply outcome_eq_of_iff _ _ _ a.1 b.1
    rw [a.2, b.2]
    constructor
    · rintro ⟨e, he, hc⟩
      exact ⟨e, hp.mem_iff.mp he, hc⟩
    · rintro ⟨e, he, hc⟩
      exact ⟨e, hp.mem_iff.mpr he, hc⟩
  · intro hx d
    have hy : ∀ e ∈ ys, json_number_value e ≠ 0 := fun e he => hx e (hp.mem_iff.mpr he)
    simp only [float_array_includes, hr1, hr2, json_array_elems]
    have a := float_scan_nonzero d xs hx
    have b := float_scan_nonzero d ys hy
    apply outcome_eq_of_iff _ _ _ a.1 b.1
    rw [a.2, b.2]
    constructor
    · rintro ⟨e, he, hc⟩
      exact ⟨e, hp.mem_iff.mp he, hc⟩
    · rintro ⟨e, he, hc⟩
      exact ⟨e, hp.mem_iff.mpr he, hc⟩

/-- Witness of the amended C9: `doc_xy` against `doc_yx` for the strings, `doc_57`
against `doc_75` for the numbers; each pair answers alike, with 1. -/
theorem array_includes_perm_witness :
    (string_array_includes { data := some doc_xy } "arr".toList "y".toList =
        string_array_includes { data := some doc_yx } "arr".toList "y".toList ∧
      string_array_includes { data := some doc_yx } "arr".toList "y".toList = .ret 1) ∧
    (integer_array_includes { data := some doc_57 } "arr".toList 7 =
        integer_array_includes { data := some doc_75 } "arr".toList 7 ∧
      integer_array_includes { data := some doc_75 } "arr".toList 7 = .ret 1) ∧
    (float_array_includes { data := some doc_57 } "arr".toList (.finite 7) =
        float_array_includes { data := some doc_75 } "arr".toList (.finite 7) ∧
      float_array_includes { data := some doc_75 } "arr".toList (.finite 7) = .ret 1) :=
  ⟨⟨(array_includes_perm doc_xy doc_yx "arr".toList []
        [.string "x".toList, .string "y".toList] [.string "y".toList, .string "x".toList]
        (by decide) (by decide) rfl rfl (List.Perm.swap _ _ [])).1 (by simp) "y".toList,
      by decide⟩,
   ⟨(array_includes_perm doc_57 doc_75 "arr".toList [] [.real 5, .real 7] [.real 7, .real 5]
        (by decide) (by decide) rfl rfl (List.Perm.swap _ _ [])).2.1 (by decide) 7,
      by decide⟩,
   ⟨(array_includes_perm doc_57 doc_75 "arr".toList [] [.real 5, .real 7] [.real 7, .real 5]
        (by decide) (by decide) rfl rfl (List.Perm.swap _ _ [])).2.2 (by decide) (.finite 7),
      by decide⟩⟩

/-- Counterexample to C9 as stated: the arrays of `doc_05` and `doc_50` are
permutations of each other, yet `integer_array_includes` with 5 returns 0 on the
first and 1 on the second; `float_array_includes` does the same. -/
theorem array_includes_perm_counterexample :
    List.Perm [json_t.real 0, json_t.real 5] [json_t.real 5, json_t.real 0] ∧
    integer_array_includes { data := some doc_05 } "arr".toList 5 = .ret 0 ∧
    integer_array_includes { data := some doc_50 } "arr".toList 5 = .ret 1 ∧
    float_array_includes { data := some doc_05 } "arr".toList (.finite 5) = .ret 0 ∧
    float_array_includes { data := some doc_50 } "arr".toList (.finite 5) = .ret 1 :=
  ⟨List.Perm.swap _ _ [], by decide, by decide, by decide, by decide⟩

/-! ## Empty segments -/

theorem tokens_skip_empty (segs : List (List Char)) (h : ∀ s ∈ segs, DOT ∉ s ∧ NUL ∉ s) :
    tokens (strdup (dotted segs)) =
      tokens (strdup (dotted (segs.filter (fun s => s != [])))) := by
  have hf : ∀ s ∈ segs.filter (fun s => s != []), DOT ∉ s ∧ NUL ∉ s :=
    fun s hs => h s (List.mem_of_mem_filter hs)
  rw [strdup_dotted segs (fun s hs => (h s hs).2),
    strdup_dotted _ (fun s hs => (hf s hs).2),
    tokens_dotted segs (fun s hs => (h s hs).1),
    tokens_dotted _ (fun s hs => (hf s hs).1), List.filter_filter]
  simp

theorem empty_segments_skipped_segs (m : YR_OBJECT) (segs : List (List Char))
    (h : ∀ s ∈ segs, DOT ∉ s ∧ NUL ∉ s)
    (v : List Char) (i : Int) (d : c_double) (re : List Char → Int) :
    key_exists m (dotted segs) = key_exists m (dotted (segs.filter (fun s => s != []))) ∧
    value_exists_string m (dotted segs) v =
      value_exists_string m (dotted (segs.filter (fun s => s != []))) v ∧
    value_exists_integer m (dotted segs) i =
      value_exists_integer m (dotted (segs.filter (fun s => s != []))) i ∧
    value_exists_regex m (dotted segs) re =
      value_exists_regex m (dotted (segs.filter (fun s => s != []))) re ∧
    value_exists_float m (dotted segs) d =
      value_exists_float m (dotted (segs.filter (fun s => s != []))) d ∧
    string_array_includes m (dotted segs) v =
      string_array_includes m (dotted (segs.filter (fun s => s != []))) v ∧
    integer_array_includes m (dotted segs) i =
      integer_array_includes m (dotted (segs.filter (fun s => s != []))) i ∧
    float_array_includes m (dotted segs) d =
      float_array_includes m (dotted (segs.filter (fun s => s != []))) d := by
  have ht := tokens_skip_empty segs h
  obtain ⟨data⟩ := m
  cases data with
  | none => exact ⟨rfl, rfl, rfl, rfl, rfl, rfl, rfl, rfl⟩
  | some json =>
    have hr := resolve_congr json _ _ ht
    simp only [key_exists, value_exists_string, value_exists_integer, value_exists_regex,
      value_exists_float, string_array_includes, integer_array_includes,
      float_array_includes, ht, hr, and_self]

theorem splitOn_dot_free (key : List Char) : ∀ s ∈ key.splitOn DOT, DOT ∉ s := by
  induction key with
  | nil => simp
  | cons c cs ih =>
    intro s hs
    simp only [List.splitOn, List.splitOnP_cons] at hs ih
    by_cases hc : (c == DOT) = true
    · rw [if_pos hc] at hs
      rcases List.mem_cons.mp hs with h1 | h1
      · rw [h1]; simp
      · exact ih s h1
    · rw [if_neg hc] at hs
      cases hsp : List.splitOnP (fun x => x == DOT) cs with
      | nil => rw [hsp] at hs; simp [List.modifyHead] at hs
      | cons p ps =>
        rw [hsp] at hs ih
        simp only [List.modifyHead, List.mem_cons] at hs
        rcases hs with h1 | h1
        · rw [h1]
          intro hmem
          rcases List.mem_cons.mp hmem with h2 | h2
          · exact hc (by simp [h2])
          · exact ih p (by simp) h2
        · exact ih s (List.mem_cons_of_mem _ h1)

theorem mem_dotted_of_mem (c : Char) (s : List Char) (segs : List (List Char))
    (hs : s ∈ segs) (hc : c ∈ s) : c ∈ dotted segs := by
  induction segs with
  | nil => cases hs
  | cons a r ih =>
    cases r with
    | nil =>
      have ha : dotted [a] = a := by simp [dotted, List.intercalate, List.intersperse]
      rw [ha]
      rcases List.mem_cons.mp hs with h1 | h1
      · rw [← h1]; exact hc
      · cases h1
    | cons t r =>
      rw [dotted_cons_cons]
      rcases List.mem_cons.mp hs with h1 | h1
      · rw [← h1]
        exact List.mem_append_left _ hc
      · exact List.mem_append_right _ (List.mem_cons_of_mem _ (ih h1))

theorem dotted_splitOn (key : List Char) : dotted (key.splitOn DOT) = key :=
  List.intercalate_splitOn key DOT

/-- The tokens of a key are its non-empty dot-separated segments. -/
theorem tokens_eq_splitOn (key : List Char) :
    tokens key = (key.splitOn DOT).filter (fun s => s != []) := by
  have h := tokens_dotted (key.splitOn DOT) (splitOn_dot_free key)
  rwa [dotted_splitOn] at h

/-- Claim C10, amended.  Empty segments are skipped, not rejected: for every
module state and every key (a C string), each of the eight rule functions has
the same outcome on the key as on the key made of its non-empty dot-separated
segments, joined by single dots. -/
theorem empty_segments_skipped (m : YR_OBJECT) (key : List Char) (hnul : NUL ∉ key)
    (v : List Char) (i : Int) (d : c_double) (re : List Char → Int) :
    key_exists m key =
      key_exists m (dotted ((key.splitOn DOT).filter (fun s => s != []))) ∧
    value_exists_string m key v =
      value_exists_string m (dotted ((key.splitOn DOT).filter (fun s => s != []))) v ∧
    value_exists_integer m key i =
      value_exists_integer m (dotted ((key.splitOn DOT).filter (fun s => s != []))) i ∧
    value_exists_regex m key re =
      value_exists_regex m (dotted ((key.splitOn DOT).filter (fun s => s != []))) re ∧
    value_exists_float m key d =
      value_exists_float m (dotted ((key.splitOn DOT).filter (fun s => s != []))) d ∧
    string_array_includes m key v =
      string_array_includes m (dotted ((key.splitOn DOT).filter (fun s => s != []))) v ∧
    integer_array_includes m key i =
      integer_array_includes m (dotted ((key.splitOn DOT).filter (fun s => s != []))) i ∧
    float_array_includes m key d =
      float_array_includes m (dotted ((key.splitOn DOT).filter (fun s => s != []))) d := by
  have hsegs : ∀ s ∈ key.splitOn DOT, DOT ∉ s ∧ NUL ∉ s := by
    intro s hs
    refine ⟨splitOn_dot_free key s hs, fun hn => hnul ?_⟩
    have := mem_dotted_of_mem NUL s _ hs hn
    rwa [dotted_splitOn] at this
  have h := empty_segments_skipped_segs m (key.splitOn DOT) hsegs v i d re
  rw [dotted_splitOn] at h
  exact h

/-- Witness of the amended C10 on `doc_nested`: the key `a..b` is answered like
`a.b`, with 1. -/
theorem empty_segments_skipped_witness :
    key_exists { data := some doc_nested } "a..b".toList =
      key_exists { data := some doc_nested } "a.b".toList ∧
    key_exists { data := some doc_nested } "a.b".toList = .ret 1 :=
  ⟨(empty_segments_skipped { data := some doc_nested } "a..b".toList
      (by decide) [] 0 .nonfinite (fun _ => 0)).1,
   by decide⟩

/-- Counterexample to C10 as stated: on `doc_nested` the keys `a..b`, `.a.b` and
`a.b.` each contain an empty segment, yet `key_exists` returns 1 on them and
`value_exists` finds the string `x` under them. -/
theorem empty_segment_counterexample :
    [] ∈ List.splitOn DOT "a..b".toList ∧
    [] ∈ List.splitOn DOT ".a.b".toList ∧
    [] ∈ List.splitOn DOT "a.b.".toList ∧
    key_exists { data := some doc_nested } "a..b".toList = .ret 1 ∧
    key_exists { data := some doc_nested } ".a.b".toList = .ret 1 ∧
    key_exists { data := some doc_nested } "a.b.".toList = .ret 1 ∧
    value_exists_string { data := some doc_nested } "a..b".toList "x".toList = .ret 1 :=
  ⟨by decide, by decide, by decide, by decide, by decide, by decide, by decide⟩

/-! ## Keys without a token -/

theorem tokens_dots (key : List Char) (h : ∀ c ∈ key, c = DOT) : tokens key = [] := by
  induction key with
  | nil => rfl
  | cons c cs ih =>
    rw [h c (by simp), tokens_dot]
    exact ih (fun x hx => h x (List.mem_cons_of_mem _ hx))

theorem strdup_dots (key : List Char) (h : ∀ c ∈ key, c = DOT) : strdup key = key := by
  apply cstr_eq_self
  intro hmem
  exact absurd (h NUL hmem) (by decide)

/-- Claim C11, amended.  On a loaded document a key that yields no segment (the
empty string, or dots only) is resolved to the root itself: the loop of
`key_exists` is not entered and the function returns 1. -/
theorem key_exists_zero_segments (json : json_t) (key : List Char)
    (h : ∀ c ∈ key, c = DOT) :
    tokens (strdup key) = [] ∧ key_exists { data := some json } key = .ret 1 := by
  have ht : tokens (strdup key) = [] := by
    rw [strdup_dots key h]
    exact tokens_dots key h
  refine ⟨ht, ?_⟩
  rw [key_exists_tokens, ht]
  rfl

/-- Witness of the amended C11 on `doc_nested` with the key of three dots. -/
theorem key_exists_zero_segments_witness :
    key_exists { data := some doc_nested } "...".toList = .ret 1 :=
  (key_exists_zero_segments doc_nested "...".toList (by decide)).2

/-- Counterexample to C11 as stated: the empty key and the key of three dots
yield no token, yet `key_exists` returns 1 on `doc_nested`. -/
theorem key_exists_zero_segments_counterexample :
    tokens (strdup "".toList) = [] ∧ tokens (strdup "...".toList) = [] ∧
    key_exists { data := some doc_nested } "".toList = .ret 1 ∧
    key_exists { data := some doc_nested } "...".toList = .ret 1 :=
  ⟨by decide, by decide, by decide, by decide⟩

/-! ## Typed predicates and existence -/

theorem resolve_error (json : json_t) (key : List Char) (out : Outcome)
    (h : resolve json key = .error out) :
    out = .ret 0 ∨ out = .fault .nullToken ∨ out = .fault .tokenOverflow := by
  unfold resolve at h
  cases ht : tokens (strdup key) with
  | nil =>
    rw [ht] at h
    simp only [Except.error.injEq] at h
    exact Or.inr (Or.inl h.symm)
  | cons t r =>
    rw [ht] at h
    simp only at h
    cases hc : copyLoop (t.length + 1) json (t :: r) with
    | notFound =>
      rw [hc] at h
      simp only [Except.error.injEq] at h
      exact Or.inl h.symm
    | overflow =>
      rw [hc] at h
      simp only [Except.error.injEq] at h
      exact Or.inr (Or.inr h.symm)
    | found n => rw [hc] at h; cases h

theorem resolve_error_ne_one (json : json_t) (key : List Char) (out : Outcome)
    (h : resolve json key = .error out) : out ≠ .ret 1 := by
  rcases resolve_error json key out h with h1 | h1 | h1 <;> rw [h1] <;> decide

theorem key_exists_of_resolve (json node : json_t) (key : List Char)
    (h : resolve json key = .ok node) : key_exists { data := some json } key = .ret 1 := by
  rw [key_exists_tokens, resolve_ok_follow json node key h]

/-- A rule function that keeps `prevToken` returns 1 only behind a loop that ran
to its end. -/
theorem one_resolves (m : YR_OBJECT) (key : List Char) (out : Outcome)
    (hnone : m.data = none → out = .ret 0)
    (herr : ∀ json o, m.data = some json → resolve json key = .error o → out = o)
    (h : out = .ret 1) : key_exists m key = .ret 1 := by
  obtain ⟨data⟩ := m
  cases data with
  | none =>
    have := hnone rfl
    rw [h] at this
    cases this
  | some json =>
    cases hr : resolve json key with
    | error o =>
      have := herr json o rfl hr
      rw [h] at this
      exact absurd this.symm (resolve_error_ne_one json key o hr)
    | ok node => exact key_exists_of_resolve json node key hr

/-- Claim C18.  For every module state, key and comparison value: when a variant
of `value_exists` or one of the `*_array_includes` functions returns 1, so does
`key_exists` on the same key. -/
theorem typed_implies_key_exists (m : YR_OBJECT) (key v : List Char) (i : Int)
    (d : c_double) (re : List Char → Int)
    (h : value_exists_string m key v = .ret 1 ∨ value_exists_integer m key i = .ret 1 ∨
      value_exists_regex m key re = .ret 1 ∨ value_exists_float m key d = .ret 1 ∨
      string_array_includes m key v = .ret 1 ∨ integer_array_includes m key i = .ret 1 ∨
      float_array_includes m key d = .ret 1) :
    key_exists m key = .ret 1 := by
  rcases h with h | h | h | h | h | h | h
  · refine one_resolves m key _ ?_ ?_ h
    · intro hd; simp only [value_exists_string, hd]
    · intro json o hd hr; simp only [value_exists_string, hd, hr]
  · refine one_resolves m key _ ?_ ?_ h
    · intro hd; simp only [value_exists_integer, hd]
    · intro json o hd hr; simp only [value_exists_integer, hd, hr]
  · refine one_resolves m key _ ?_ ?_ h
    · intro hd; simp only [value_exists_regex, hd]
    · intro json o hd hr; simp only [value_exists_regex, hd, hr]
  · refine one_resolves m key _ ?_ ?_ h
    · intro hd; simp only [value_exists_float, hd]
    · intro json o hd hr; simp only [value_exists_float, hd, hr]
  · refine one_resolves m key _ ?_ ?_ h
    · intro hd; simp only [string_array_includes, hd]
    · intro json o hd hr; simp only [string_array_includes, hd, hr]
  · refine one_resolves m key _ ?_ ?_ h
    · intro hd; simp only [integer_array_includes, hd]
    · intro json o hd hr; simp only [integer_array_includes, hd, hr]
  · refine one_resolves m key _ ?_ ?_ h
    · intro hd; simp only [float_array_includes, hd]
    · intro json o hd hr; simp only [float_array_includes, hd, hr]

/-- Witness of C18: on `doc_nested` the string variant returns 1 for `a.b`, on
`doc_57` the integer array test returns 1 for `arr`; `key_exists` returns 1 on
both keys. -/
theorem typed_implies_key_exists_witness :
    key_exists { data := some doc_nested } "a.b".toList = .ret 1 ∧
    key_exists { data := some doc_57 } "arr".toList = .ret 1 :=
  ⟨typed_implies_key_exists { data := some doc_nested } "a.b".toList "x".toList 0
      .nonfinite (fun _ => 0) (Or.inl (by decide)),
   typed_implies_key_exists { data := some doc_57 } "arr".toList [] 7
      .nonfinite (fun _ => 0) (Or.inr (Or.inr (Or.inr (Or.inr (Or.inr (Or.inl (by decide)))))))⟩

/-! ## Extending a path -/

theorem follow_append (json : json_t) (p q : List (List Char)) :
    follow json (p ++ q) = (follow json p).bind (fun node => follow node q) := by
  induction p generalizing json with
  | nil => rfl
  | cons s r ih =>
    cases json with
    | object fields =>
      simp only [List.cons_append, follow]
      cases fields.lookup s with
      | none => rfl
      | some child => exact ih child
    | _ => rfl

/-- Claim C19.  On a loaded document and for segment sequences `p` and `q`: when
`key_exists` returns 1 on the dotted key of `p` followed by `q` it returns 1 on
the dotted key of `p`; and when it returns 0 on the key of `p` it returns 0 on
the key of every extension. -/
theorem key_exists_extension (json : json_t) (p q : List (List Char))
    (hp : ∀ s ∈ p, Segment s) (hq : ∀ s ∈ q, Segment s) :
    (key_exists { data := some json } (dotted (p ++ q)) = .ret 1 →
      key_exists { data := some json } (dotted p) = .ret 1) ∧
    (key_exists { data := some json } (dotted p) = .ret 0 →
      key_exists { data := some json } (dotted (p ++ q)) = .ret 0) := by
  have hpq : ∀ s ∈ p ++ q, Segment s := by
    intro s hs
    rcases List.mem_append.mp hs with h | h
    · exact hp s h
    · exact hq s h
  rw [key_exists_tokens, key_exists_tokens, tokens_of_segments p hp,
    tokens_of_segments (p ++ q) hpq, follow_append]
  cases follow json p with
  | none => simp
  | some node => simp

/-- Witness of C19 on `doc_nested`: `a.b` exists, hence `a`; `c` does not, hence
neither does `c.b`. -/
theorem key_exists_extension_witness :
    key_exists { data := some doc_nested } "a".toList = .ret 1 ∧
    key_exists { data := some doc_nested } "c.b".toList = .ret 0 :=
  ⟨(key_exists_extension doc_nested ["a".toList] ["b".toList] (by decide) (by decide)).1
      (by decide),
   (key_exists_extension doc_nested ["c".toList] ["b".toList] (by decide) (by decide)).2
      (by decide)⟩

/-! ## Regular expressions -/

theorem value_exists_regex_resolved (json : json_t) (key t : List Char)
    (re : List Char → Int) (h : resolve json key = .ok (.string t)) :
    value_exists_regex { data := some json } key re =
      if re (cstr t) ≤ 0 then .ret 0 else .ret 1 := by
  simp only [value_exists_regex, h, json_string_value]

/-- Claim C15, amended.  On a path none of whose segments is longer than the
first and which resolves to a string `t`: `value_exists` (regex) returns 1
exactly when the matcher, applied to `t` up to its first NUL, reports a length
greater than 0, and 0 exactly when it reports 0 or less; for a NUL-free `t` the
matcher is applied to `t` itself. -/
theorem value_exists_regex_cstr (json : json_t) (s : List Char) (r : List (List Char))
    (t : List Char) (re : List Char → Int)
    (hseg : ∀ x ∈ s :: r, Segment x) (hfit : ∀ x ∈ r, x.length ≤ s.length)
    (hres : follow json (s :: r) = some (.string t)) :
    (value_exists_regex { data := some json } (dotted (s :: r)) re = .ret 1 ↔
      0 < re (cstr t)) ∧
    (value_exists_regex { data := some json } (dotted (s :: r)) re = .ret 0 ↔
      re (cstr t) ≤ 0) ∧
    (NUL ∉ t →
      (value_exists_regex { data := some json } (dotted (s :: r)) re = .ret 1 ↔ 0 < re t) ∧
      (value_exists_regex { data := some json } (dotted (s :: r)) re = .ret 0 ↔ re t ≤ 0)) := by
  have hr : resolve json (dotted (s :: r)) = .ok (.string t) := by
    rw [resolve_segments json s r hseg hfit, hres]
  have hmain : ∀ u : List Char, cstr t = u →
      (value_exists_regex { data := some json } (dotted (s :: r)) re = .ret 1 ↔ 0 < re u) ∧
      (value_exists_regex { data := some json } (dotted (s :: r)) re = .ret 0 ↔ re u ≤ 0) := by
    intro u hu
    rw [value_exists_regex_resolved json _ t re hr, hu]
    by_cases hle : re u ≤ 0
    · rw [if_pos hle]
      exact ⟨⟨fun h => (by cases h), fun h => absurd hle (not_le.mpr h)⟩,
        ⟨fun _ => hle, fun _ => rfl⟩⟩
    · rw [if_neg hle]
      exact ⟨⟨fun _ => not_le.mp hle, fun _ => rfl⟩,
        ⟨fun h => (by cases h), fun h => absurd h hle⟩⟩
  exact ⟨(hmain _ rfl).1, (hmain _ rfl).2, fun hn => hmain t (cstr_eq_self t hn)⟩

/-- Witness of the amended C15 on `doc_nested`: the matcher `re_any` reports the
length 1 on the string `x` under `a.b`, and the call returns 1. -/
theorem value_exists_regex_cstr_witness :
    value_exists_regex { data := some doc_nested } "a.b".toList re_any = .ret 1 :=
  ((value_exists_regex_cstr doc_nested "a".toList ["b".toList] "x".toList re_any
      (by decide) (by decide) rfl).1).mpr (by decide)

/-- Counterexample to C15 as stated: in `doc_nul` the field `k` is the string
`a`, NUL, `b`; the matcher `re_a_nul_b` reports a match of length 3 on that
string, yet `value_exists` returns 0, since the matcher is handed the part before
the NUL. -/
theorem value_exists_regex_nul_counterexample :
    follow doc_nul ["k".toList] = some (.string ['a', NUL, 'b']) ∧
    0 < re_a_nul_b ['a', NUL, 'b'] ∧
    value_exists_regex { data := some doc_nul } "k".toList re_a_nul_b = .ret 0 :=
  ⟨rfl, by decide, by decide⟩

/-! ## Type mismatch -/

/-- Support for C12: on a path none of whose segments is longer than the first
and which resolves, the string and the regex variant of `value_exists` return 0
on a node that is no string, the integer and the float variant on a node that is
no number. -/
theorem type_mismatch_value_exists (json node : json_t) (s : List Char)
    (r : List (List Char)) (hseg : ∀ x ∈ s :: r, Segment x)
    (hfit : ∀ x ∈ r, x.length ≤ s.length) (hres : follow json (s :: r) = some node) :
    (json_string_value node = none → ∀ (v : List Char) (re : List Char → Int),
      value_exists_string { data := some json } (dotted (s :: r)) v = .ret 0 ∧
      value_exists_regex { data := some json } (dotted (s :: r)) re = .ret 0) ∧
    ((∀ q, node ≠ .real q) → ∀ (i : Int) (d : c_double),
      value_exists_integer { data := some json } (dotted (s :: r)) i = .ret 0 ∧
      value_exists_float { data := some json } (dotted (s :: r)) d = .ret 0) := by
  have hr : resolve json (dotted (s :: r)) = .ok node := by
    rw [resolve_segments json s r hseg hfit, hres]
  constructor
  · intro hs v re
    simp only [value_exists_string, value_exists_regex, hr, hs, and_self]
  · intro hn i d
    have h0 : json_number_value node = 0 := by
      cases node with
      | real q => exact absurd rfl (hn q)
      | _ => rfl
    simp only [value_exists_integer, value_exists_float, hr, h0, if_true, and_self]

/-- Claim C12 at its failing input.  In `doc_n42` the path `n` resolves to a
number.  The string variant of `value_exists` returns 0 on it; the three array
functions do not: their loop runs over no element and the code behind it
releases the resolved node and frees `key` twice. -/
theorem type_mismatch_double_free :
    follow doc_n42 ["n".toList] = some (.real 42) ∧
    value_exists_string { data := some doc_n42 } "n".toList "x".toList = .ret 0 ∧
    string_array_includes { data := some doc_n42 } "n".toList "x".toList =
      .fault .doubleFree ∧
    integer_array_includes { data := some doc_n42 } "n".toList 42 = .fault .doubleFree ∧
    float_array_includes { data := some doc_n42 } "n".toList (.finite 42) =
      .fault .doubleFree :=
  ⟨rfl, by decide, by decide, by decide, by decide⟩

/-! ## Definite answers -/

/-- Support for C13: `key_exists` answers 0 or 1 for every module state and key,
and with no document all eight functions answer 0. -/
theorem key_exists_definite (m : YR_OBJECT) (key : List Char) :
    key_exists m key = .ret 0 ∨ key_exists m key = .ret 1 := by
  obtain ⟨data⟩ := m
  cases data with
  | none => exact Or.inl rfl
  | some json =>
    rw [key_exists_tokens]
    cases follow json (tokens (strdup key)) with
    | none => exact Or.inl rfl
    | some node => exact Or.inr rfl

/-- Claim C13 at its failing inputs.  On loaded documents four calls give no
answer: a key without token makes `value_exists` pass `NULL` to `strdup`; a
number in the array makes `string_array_includes` pass `NULL` to `strcmp`; a
string array without the supplied string makes it free `key` twice; a second
token longer than the first overflows `prevToken`. -/
theorem predicates_without_answer :
    value_exists_string { data := some doc_n42 } "".toList "x".toList =
      .fault .nullToken ∧
    string_array_includes { data := some doc_mixed } "arr".toList "y".toList =
      .fault .nullString ∧
    string_array_includes { data := some doc_arr } "arr".toList "q".toList =
      .fault .doubleFree ∧
    value_exists_integer { data := some doc_long } (dotted ["a".toList, long_token]) 0 =
      .fault .tokenOverflow :=
  ⟨by decide, by decide, by decide, by decide⟩

/-! ## Mutation of the document -/

/-- Support for C14: a call of an array function that returns an integer has
released no node of the document. -/
theorem returning_call_frees_nothing (m : YR_OBJECT) (key v : List Char) (i : Int)
    (d : c_double) (n : Int) :
    (string_array_includes m key v = .ret n → string_array_includes_freed m key v = none) ∧
    (integer_array_includes m key i = .ret n →
      integer_array_includes_freed m key i = none) ∧
    (float_array_includes m key d = .ret n → float_array_includes_freed m key d = none) := by
  obtain ⟨data⟩ := m
  cases data with
  | none => exact ⟨fun _ => rfl, fun _ => rfl, fun _ => rfl⟩
  | some json =>
    cases hr : resolve json key with
    | error o => exact ⟨fun _ => by simp [string_array_includes_freed, freed_node, hr],
        fun _ => by simp [integer_array_includes_freed, freed_node, hr],
        fun _ => by simp [float_array_includes_freed, freed_node, hr]⟩
    | ok array =>
      refine ⟨?_, ?_, ?_⟩
      · intro h
        simp only [string_array_includes, hr] at h
        simp only [string_array_includes_freed, freed_node, hr, h]
      · intro h
        simp only [integer_array_includes, hr] at h
        simp only [integer_array_includes_freed, freed_node, hr, h]
      · intro h
        simp only [float_array_includes, hr] at h
        simp only [float_array_includes_freed, freed_node, hr, h]

/-- Claim C14 at its failing input.  On `doc_arr` the call
`string_array_includes("arr", "q")` finds no match and passes the array that
`arr` resolves to, a node of the held document, to `free`; on `doc_57` the call
`integer_array_includes("arr", 9)` does the same. -/
theorem array_call_frees_resolved_node :
    follow doc_arr ["arr".toList] =
      some (.array [.string "x".toList, .string "y".toList, .string "z".toList]) ∧
    string_array_includes_freed { data := some doc_arr } "arr".toList "q".toList =
      some (.array [.string "x".toList, .string "y".toList, .string "z".toList]) ∧
    follow doc_57 ["arr".toList] = some (.array [.real 5, .real 7]) ∧
    integer_array_includes_freed { data := some doc_57 } "arr".toList 9 =
      some (.array [.real 5, .real 7]) :=
  ⟨rfl, rfl, rfl, rfl⟩

/-! ## The integer scan by index -/

theorem integer_scan_index_one (v : Int) (xs : List json_t)
    (hrange : ∀ e ∈ xs, INT_MIN ≤ truncate (json_number_value e) ∧
      truncate (json_number_value e) ≤ INT_MAX) :
    integer_scan v xs = .ret 1 ↔
      ∃ k, k < xs.length ∧ (∀ j, j ≤ k → json_number_value (xs.getD j .null) ≠ 0) ∧
        truncate (json_number_value (xs.getD k .null)) = v := by
  induction xs with
  | nil => simp [integer_scan]
  | cons a rest ih =>
    have ih1 := ih (fun x hx => hrange x (List.mem_cons_of_mem _ hx))
    have ha := hrange a (by simp)
    simp only [integer_scan, double_to_int, if_pos ha]
    by_cases h0 : json_number_value a = 0
    · rw [if_pos h0]
      constructor
      · intro h; cases h
      · rintro ⟨k, _, hall, _⟩
        exact absurd h0 (by simpa using hall 0 (Nat.zero_le k))
    · rw [if_neg h0]
      by_cases hm : truncate (json_number_value a) = v
      · rw [if_pos hm]
        refine ⟨fun _ => ⟨0, by simp, ?_, by simpa using hm⟩, fun _ => rfl⟩
        intro j hj
        have : j = 0 := by omega
        subst this
        simpa using h0
      · rw [if_neg hm, ih1]
        constructor
        · rintro ⟨k, hk, hall, hv⟩
          refine ⟨k + 1, by simpa using hk, ?_, by simpa using hv⟩
          intro j hj
          cases j with
          | zero => simpa using h0
          | succ j => simpa using hall j (by omega)
        · rintro ⟨k, hk, hall, hv⟩
          cases k with
          | zero => exact absurd (by simpa using hv) hm
          | succ k =>
            refine ⟨k, by simpa using hk, ?_, by simpa using hv⟩
            intro j hj
            simpa using hall (j + 1) (by omega)

theorem integer_scan_index_zero (v : Int) (xs : List json_t)
    (hrange : ∀ e ∈ xs, INT_MIN ≤ truncate (json_number_value e) ∧
      truncate (json_number_value e) ≤ INT_MAX) :
    integer_scan v xs = .ret 0 ↔
      ∃ k, k < xs.length ∧ json_number_value (xs.getD k .null) = 0 ∧
        ∀ j, j < k → json_number_value (xs.getD j .null) ≠ 0 ∧
          truncate (json_number_value (xs.getD j .null)) ≠ v := by
  induction xs with
  | nil => simp [integer_scan]
  | cons a rest ih =>
    have ih1 := ih (fun x hx => hrange x (List.mem_cons_of_mem _ hx))
    have ha := hrange a (by simp)
    simp only [integer_scan, double_to_int, if_pos ha]
    by_cases h0 : json_number_value a = 0
    · rw [if_pos h0]
      refine ⟨fun _ => ⟨0, by simp, by simpa using h0, ?_⟩, fun _ => rfl⟩
      intro j hj
      omega
    · rw [if_neg h0]
      by_cases hm : truncate (json_number_value a) = v
      · rw [if_pos hm]
        constructor
        · intro h
          simp only [Outcome.ret.injEq] at h
          exact absurd h (by decide)
        · rintro ⟨k, _, hz, hall⟩
          cases k with
          | zero => exact absurd (by simpa using hz) h0
          | succ k => exact absurd hm (by simpa using (hall 0 (by omega)).2)
      · rw [if_neg hm, ih1]
        constructor
        · rintro ⟨k, hk, hz, hall⟩
          refine ⟨k + 1, by simpa using hk, by simpa using hz, ?_⟩
          intro j hj
          cases j with
          | zero => exact ⟨by simpa using h0, by simpa using hm⟩
          | succ j => simpa using hall j (by omega)
        · rintro ⟨k, hk, hz, hall⟩
          cases k with
          | zero => exact absurd (by simpa using hz) h0
          | succ k =>
            refine ⟨k, by simpa using hk, by simpa using hz, ?_⟩
            intro j hj
            simpa using hall (j + 1) (by omega)

/-- Claim C17, amended.  On a path none of whose segments is longer than the
first and which resolves to an array whose elements, truncated, are within the
range of `int`: `integer_array_includes` returns 1 exactly when there is an
index `k` such that every element at an index up to `k` is a non-zero number and
element `k`, truncated, equals the supplied integer reduced to 32-bit two's
complement; it returns 0 exactly when there is an index `k` whose element is 0
or no number while every element before it is a non-zero number that does not
match.  For a supplied integer within the range of `int` the reduction changes
nothing. -/
theorem integer_array_includes_index (json : json_t) (s : List Char)
    (r : List (List Char)) (xs : List json_t) (i : Int)
    (hseg : ∀ x ∈ s :: r, Segment x) (hfit : ∀ x ∈ r, x.length ≤ s.length)
    (hres : follow json (s :: r) = some (.array xs))
    (hrange : ∀ e ∈ xs, INT_MIN ≤ truncate (json_number_value e) ∧
      truncate (json_number_value e) ≤ INT_MAX) :
    (integer_array_includes { data := some json } (dotted (s :: r)) i = .ret 1 ↔
      ∃ k, k < xs.length ∧ (∀ j, j ≤ k → json_number_value (xs.getD j .null) ≠ 0) ∧
        truncate (json_number_value (xs.getD k .null)) = int_of_argument i) ∧
    (integer_array_includes { data := some json } (dotted (s :: r)) i = .ret 0 ↔
      ∃ k, k < xs.length ∧ json_number_value (xs.getD k .null) = 0 ∧
        ∀ j, j < k → json_number_value (xs.getD j .null) ≠ 0 ∧
          truncate (json_number_value (xs.getD j .null)) ≠ int_of_argument i) ∧
    (INT_MIN ≤ i → i ≤ INT_MAX → int_of_argument i = i) := by
  have hr : resolve json (dotted (s :: r)) = .ok (.array xs) := by
    rw [resolve_segments json s r hseg hfit, hres]
  simp only [integer_array_includes, hr, json_array_elems]
  exact ⟨integer_scan_index_one _ xs hrange, integer_scan_index_zero _ xs hrange,
    int_of_argument_id i⟩

/-- Witness of the amended C17: in `doc_57` the integer 7 is found at index 1,
behind the non-zero 5; in `doc_x5` the string at index 0 gives 0 although 5
follows. -/
theorem integer_array_includes_index_witness :
    integer_array_includes { data := some doc_57 } "arr".toList 7 = .ret 1 ∧
    integer_array_includes { data := some doc_x5 } "arr".toList 5 = .ret 0 :=
  ⟨((integer_array_includes_index doc_57 "arr".toList [] [.real 5, .real 7] 7
      (by decide) (by decide) rfl (by decide)).1).mpr
      ⟨1, by decide, by decide, by decide⟩,
   ((integer_array_includes_index doc_x5 "arr".toList [] [.string "x".toList, .real 5] 5
      (by decide) (by decide) rfl (by decide)).2.1).mpr
      ⟨0, by decide, by decide, by decide⟩⟩

/-- Counterexample to C17 as stated: in `doc_5` the only element is 5 and the
supplied integer is `5 + 2^32`; no element truncated equals it, yet the call
returns 1, because the argument is stored in an `int`. -/
theorem integer_array_includes_index_counterexample :
    follow doc_5 ["arr".toList] = some (.array [.real 5]) ∧
    (¬ ∃ k, k < [json_t.real 5].length ∧
      truncate (json_number_value ([json_t.real 5].getD k .null)) = 4294967301) ∧
    integer_array_includes { data := some doc_5 } "arr".toList 4294967301 = .ret 1 :=
  ⟨rfl, by decide, by decide⟩

/-! ## Superfluous dots -/

theorem splitOn_cons_dot (k : List Char) : (DOT :: k).splitOn DOT = [] :: k.splitOn DOT := by
  simp [List.splitOn, List.splitOnP_cons]

theorem splitOn_cons_ne (c : Char) (k : List Char) (h : c ≠ DOT) :
    (c :: k).splitOn DOT = (k.splitOn DOT).modifyHead (fun s => c :: s) := by
  have hb : (c == DOT) = false := by simpa using h
  simp [List.splitOn, List.splitOnP_cons, hb]

theorem splitOn_ne_nil (k : List Char) : k.splitOn DOT ≠ [] :=
  List.splitOnP_ne_nil _ k

theorem splitOn_append_dot (k : List Char) :
    (k ++ [DOT]).splitOn DOT = k.splitOn DOT ++ [[]] := by
  induction k with
  | nil => rfl
  | cons c cs ih =>
    by_cases hc : c = DOT
    · subst hc
      rw [List.cons_append, splitOn_cons_dot, splitOn_cons_dot, ih]
      rfl
    · rw [List.cons_append, splitOn_cons_ne c _ hc, splitOn_cons_ne c _ hc, ih]
      cases hs : cs.splitOn DOT with
      | nil => exact absurd hs (splitOn_ne_nil cs)
      | cons p ps => rfl

theorem tokens_append_dot (k : List Char) : tokens (k ++ [DOT]) = tokens k := by
  rw [tokens_eq_splitOn, tokens_eq_splitOn, splitOn_append_dot, List.filter_append]
  simp

theorem tokens_trim_leading (k : List Char) : tokens (trim_leading k) = tokens k := by
  unfold trim_leading
  induction k with
  | nil => rfl
  | cons c cs ih =>
    by_cases hc : c = DOT
    · subst hc
      rw [tokens_dot, ← ih]
      simp [List.dropWhile]
    · have hb : (c == DOT) = false := by simpa using hc
      simp [List.dropWhile, hb]

theorem tokens_reverse_dropWhile (l : List Char) :
    tokens (l.dropWhile (fun c => c == DOT)).reverse = tokens l.reverse := by
  induction l with
  | nil => rfl
  | cons c cs ih =>
    by_cases hc : c = DOT
    · subst hc
      rw [List.reverse_cons, tokens_append_dot, ← ih]
      simp [List.dropWhile]
    · have hb : (c == DOT) = false := by simpa using hc
      simp [List.dropWhile, hb]

theorem tokens_trim_trailing (k : List Char) : tokens (trim_trailing k) = tokens k := by
  unfold trim_trailing
  rw [tokens_reverse_dropWhile, List.reverse_reverse]

/-- Collapsing keeps the first segment and the non-empty ones among the rest. -/
theorem splitOn_collapse (k : List Char) :
    ∃ h t u, k.splitOn DOT = h :: t ∧ (collapse_dots k).splitOn DOT = h :: u ∧
      t.filter (fun s => s != []) = u.filter (fun s => s != []) := by
  induction k with
  | nil => exact ⟨[], [], [], rfl, rfl, rfl⟩
  | cons c rest ih =>
    obtain ⟨h, t, u, h1, h2, h3⟩ := ih
    by_cases hc : c = DOT
    · subst hc
      by_cases hd : rest.head? = some DOT
      · have hcol : collapse_dots (DOT :: rest) = collapse_dots rest := by
          simp [collapse_dots, hd]
        have hh : h = [] := by
          cases rest with
          | nil => simp at hd
          | cons e rest2 =>
            simp only [List.head?_cons, Option.some.injEq] at hd
            subst hd
            rw [splitOn_cons_dot] at h1
            simp only [List.cons.injEq] at h1
            exact h1.1.symm
        subst hh
        refine ⟨[], [] :: t, u, ?_, ?_, ?_⟩
        · rw [splitOn_cons_dot, h1]
        · rw [hcol, h2]
        · simpa using h3
      · have hcol : collapse_dots (DOT :: rest) = DOT :: collapse_dots rest := by
          simp [collapse_dots, hd]
        refine ⟨[], h :: t, h :: u, ?_, ?_, ?_⟩
        · rw [splitOn_cons_dot, h1]
        · rw [hcol, splitOn_cons_dot, h2]
        · simp only [List.filter_cons, h3]
    · have hcol : collapse_dots (c :: rest) = c :: collapse_dots rest := by
        simp [collapse_dots, hc]
      refine ⟨c :: h, t, u, ?_, ?_, h3⟩
      · rw [splitOn_cons_ne c _ hc, h1]
        rfl
      · rw [hcol, splitOn_cons_ne c _ hc, h2]
        rfl

theorem tokens_collapse (k : List Char) : tokens (collapse_dots k) = tokens k := by
  obtain ⟨h, t, u, h1, h2, h3⟩ := splitOn_collapse k
  rw [tokens_eq_splitOn, tokens_eq_splitOn, h1, h2]
  simp only [List.filter_cons, h3]

theorem tokens_normal_key (k : List Char) : tokens (normal_key k) = tokens k := by
  unfold normal_key
  rw [tokens_trim_trailing, tokens_trim_leading, tokens_collapse]

theorem mem_collapse (c : Char) (k : List Char) (h : c ∈ collapse_dots k) : c ∈ k := by
  induction k with
  | nil => simp [collapse_dots] at h
  | cons a rest ih =>
    simp only [collapse_dots] at h
    split at h
    · exact List.mem_cons_of_mem _ (ih h)
    · rcases List.mem_cons.mp h with h1 | h1
      · rw [h1]; exact List.mem_cons_self _ _
      · exact List.mem_cons_of_mem _ (ih h1)

theorem mem_normal_key (c : Char) (k : List Char) (h : c ∈ normal_key k) : c ∈ k := by
  unfold normal_key trim_trailing trim_leading at h
  have h1 := (List.dropWhile_sublist _).subset (List.mem_reverse.mp h)
  have h2 := (List.dropWhile_sublist _).subset (List.mem_reverse.mp h1)
  exact mem_collapse c k h2

/-- The outcome of each rule function depends on the key only through its
tokens. -/
theorem outcomes_of_tokens (m : YR_OBJECT) (k1 k2 : List Char)
    (ht : tokens (strdup k1) = tokens (strdup k2))
    (v : List Char) (i : Int) (d : c_double) (re : List Char → Int) :
    key_exists m k1 = key_exists m k2 ∧
    value_exists_string m k1 v = value_exists_string m k2 v ∧
    value_exists_integer m k1 i = value_exists_integer m k2 i ∧
    value_exists_regex m k1 re = value_exists_regex m k2 re ∧
    value_exists_float m k1 d = value_exists_float m k2 d ∧
    string_array_includes m k1 v = string_array_includes m k2 v ∧
    integer_array_includes m k1 i = integer_array_includes m k2 i ∧
    float_array_includes m k1 d = float_array_includes m k2 d := by
  obtain ⟨data⟩ := m
  cases data with
  | none => exact ⟨rfl, rfl, rfl, rfl, rfl, rfl, rfl, rfl⟩
  | some json =>
    have hr := resolve_congr json _ _ ht
    simp only [key_exists, value_exists_string, value_exists_integer, value_exists_regex,
      value_exists_float, string_array_includes, integer_array_includes,
      float_array_includes, ht, hr, and_self]

/-- Claim C16.  For every module state and every key (a C string), each of the
eight rule functions has the same outcome on the key as on `normal_key key`, the
key with its leading and trailing dots removed and every run of adjacent dots
collapsed into one. -/
theorem superfluous_dots_ignored (m : YR_OBJECT) (key : List Char) (hnul : NUL ∉ key)
    (v : List Char) (i : Int) (d : c_double) (re : List Char → Int) :
    key_exists m key = key_exists m (normal_key key) ∧
    value_exists_string m key v = value_exists_string m (normal_key key) v ∧
    value_exists_integer m key i = value_exists_integer m (normal_key key) i ∧
    value_exists_regex m key re = value_exists_regex m (normal_key key) re ∧
    value_exists_float m key d = value_exists_float m (normal_key key) d ∧
    string_array_includes m key v = string_array_includes m (normal_key key) v ∧
    integer_array_includes m key i = integer_array_includes m (normal_key key) i ∧
    float_array_includes m key d = float_array_includes m (normal_key key) d := by
  apply outcomes_of_tokens
  have h1 : strdup key = key := cstr_eq_self key hnul
  have h2 : strdup (normal_key key) = normal_key key :=
    cstr_eq_self _ (fun hm => hnul (mem_normal_key NUL key hm))
  rw [h1, h2, tokens_normal_key]

/-- Witness of C16 on `doc_nested`: the keys `a..b`, `.a.b`, `a.b.` and
`..a...b..` all have the normal form `a.b`, and `value_exists` finds the string
`x` under the last of them as under `a.b`. -/
theorem superfluous_dots_ignored_witness :
    normal_key "a..b".toList = "a.b".toList ∧
    normal_key ".a.b".toList = "a.b".toList ∧
    normal_key "a.b.".toList = "a.b".toList ∧
    normal_key "..a...b..".toList = "a.b".toList ∧
    value_exists_string { data := some doc_nested } "..a...b..".toList "x".toList =
      value_exists_string { data := some doc_nested } "a.b".toList "x".toList ∧
    value_exists_string { data := some doc_nested } "a.b".toList "x".toList = .ret 1 :=
  ⟨by decide, by decide, by decide, by decide,
   (superfluous_dots_ignored { data := some doc_nested } "..a...b..".toList (by decide)
      "x".toList 0 .nonfinite (fun _ => 0)).2.1,
   by decide⟩

end YaraJson
